import Mathlib

/-!
# Compile-time values and constant binding of the Go+ front-end

A shallow embedding of `cl/value.go` (the value model, constant folding, type
binding and composite-literal element-type unification) together with the parts
of `exec.spec/interface.go` it drives (`Reserved`, `InvalidReserved`,
`Reserved.Push`, `Builder.ReservedAsPush`).

Conventions of the embedding.
* A Go panic (`log.Panicln`, `panic`, a failing `reflect` call, an index out of
  range, a nil dereference) is an error value carrying the reason; a function
  that mutates its receiver returns the state it left behind together with it.
* A `*constVal` that a method mutates is passed in and returned explicitly.
* `exec.Builder` is an interface whose implementations emit instructions; a
  builder is modelled by the trace of calls made on it.
* `reflect.Kind` (and `astutil.ConstKind`, an alias of it) is an unsigned
  machine integer, modelled as a natural number; `int` operands are integers,
  and `i += step` wraps at the width of `int`.
* Declarations of `exec.spec` and `astutil` that the sources use but do not
  contain (`TypeFromKind`, the unbound kind markers, `OperatorInfo`) are
  modelled from the specification; the operator table, `CallBuiltinOp` and the
  arithmetic of the host are parameters (`Env`).
-/

namespace Goplus

/-! ## Kinds -/

/-- The kind of a type: `reflect.Kind`, of which `astutil.ConstKind` and `iKind`
are aliases. -/
abbrev Kind := Nat

/-- The zero kind of `reflect`. -/
def reflect.Invalid : Kind := 0
/-- Kind of `bool`. -/
def reflect.Bool : Kind := 1
/-- Kind of `int`. -/
def reflect.Int : Kind := 2
/-- Kind of `int8`. -/
def reflect.Int8 : Kind := 3
/-- Kind of `int16`. -/
def reflect.Int16 : Kind := 4
/-- Kind of `int32`. -/
def reflect.Int32 : Kind := 5
/-- Kind of `int64`. -/
def reflect.Int64 : Kind := 6
/-- Kind of `uint`. -/
def reflect.Uint : Kind := 7
/-- Kind of `uint8`. -/
def reflect.Uint8 : Kind := 8
/-- Kind of `uint16`. -/
def reflect.Uint16 : Kind := 9
/-- Kind of `uint32`. -/
def reflect.Uint32 : Kind := 10
/-- Kind of `uint64`. -/
def reflect.Uint64 : Kind := 11
/-- Kind of `uintptr`. -/
def reflect.Uintptr : Kind := 12
/-- Kind of `float32`. -/
def reflect.Float32 : Kind := 13
/-- Kind of `float64`. -/
def reflect.Float64 : Kind := 14
/-- Kind of `complex64`. -/
def reflect.Complex64 : Kind := 15
/-- Kind of `complex128`. -/
def reflect.Complex128 : Kind := 16
/-- Kind of array types. -/
def reflect.Array : Kind := 17
/-- Kind of channel types. -/
def reflect.Chan : Kind := 18
/-- Kind of function types. -/
def reflect.Func : Kind := 19
/-- Kind of interface types. -/
def reflect.Interface : Kind := 20
/-- Kind of map types. -/
def reflect.Map : Kind := 21
/-- Kind of pointer types. -/
def reflect.Ptr : Kind := 22
/-- Kind of slice types. -/
def reflect.Slice : Kind := 23
/-- Kind of `string`. -/
def reflect.String : Kind := 24
/-- Kind of struct types. -/
def reflect.Struct : Kind := 25
/-- Kind of `unsafe.Pointer`, the last concrete kind. -/
def reflect.UnsafePointer : Kind := 26

/-- Modelled from the spec: `astutil.ConstUnboundInt` is declared in the
`ast/astutil` package, which is not among the sources. The spec fixes that the
three unbound markers are kinds outside the concrete kinds and that they are
ranked int < float < complex; the numerals chosen here respect both. -/
def astutil.ConstUnboundInt : Kind := 0x77
/-- Modelled from the spec: `astutil.ConstUnboundFloat`, the unbound-float
marker, ranked above unbound-int. -/
def astutil.ConstUnboundFloat : Kind := 0x78
/-- Modelled from the spec: `astutil.ConstUnboundComplex`, the unbound-complex
marker, ranked above unbound-float. -/
def astutil.ConstUnboundComplex : Kind := 0x79

/-- Source `isConstBound`: a const kind is bound iff it is a concrete kind. -/
def isConstBound (kind : Kind) : Bool :=
  decide (kind ≤ reflect.UnsafePointer)

/-! ## Types and values of the host (`reflect.Type` and interface values) -/

/-- A non-nil `reflect.Type`: an identity (two `reflect.Type`s are `==` iff they
are the same type) and its kind. -/
structure GoType where
  name : String
  kind : Kind
  deriving DecidableEq, Repr

/-- A function type (`reflect.Type` of kind `Func`) with its output types, as
read by `NumOut` and `Out`. -/
structure FuncType where
  typ : GoType
  outs : List GoType
  deriving DecidableEq, Repr

/-- The payload of a host value. Float payloads are IEEE-754 binary64 bit
patterns; `boxed` is the content of an interface-typed `reflect.Value`. -/
inductive Raw where
  | int (i : Int)
  | uint (n : Nat)
  | float (bits : Nat)
  | complex (re im : Nat)
  | str (s : String)
  | bool (b : Bool)
  | boxed (name : String) (kind : Kind) (r : Raw)
  | other (tag : Nat)
  deriving DecidableEq, Repr

/-- A non-nil interface value: its dynamic type and its payload. -/
structure Value where
  typ : GoType
  raw : Raw
  deriving DecidableEq, Repr

/-- Reasons for a panic. -/
inductive Err where
  /-- The panic `function call with invalid argument type` of `constVal.bound`. -/
  | typeMismatch
  /-- The panic `unaryOp failed: invalid argument type.` -/
  | unaryInvalidOperand
  /-- The panic `binaryOp failed: invalid first argument type.` -/
  | binaryInvalidOperand
  /-- A panic of `reflect.Value.Convert`. -/
  | convert
  /-- The failure of `Operator.GetInfo` on an unknown operator. -/
  | unknownOperator
  /-- A panic inside `CallBuiltinOp`. -/
  | builtinOp
  /-- The panic `boundElementType: unexpected - multiple return values.` -/
  | multipleValues
  /-- The panic of `funcResults.Kind` and `funcResults.Type`. -/
  | dontCallMe
  /-- The panic of `constVal.Type` on an unbound constant. -/
  | unbounded
  /-- The panic `boundKind: unexpected type kind`. -/
  | unexpectedKind
  /-- A slice index out of range. -/
  | indexOutOfRange
  /-- A method called on a nil `reflect.Type`. -/
  | nilType
  /-- The loop does not terminate. -/
  | diverges
  deriving DecidableEq, Repr

/-- The type `exec.Operator`, an integer naming a built-in operator. -/
abbrev Operator := Nat

/-- Modelled from the spec: `exec.OperatorInfo` is declared in a file of
`exec.spec` that is not among the sources. The part read here is `InFirst`, the
bit mask over the concrete kinds accepted for the first operand, a `uint64`. -/
structure OperatorInfo where
  InFirst : Nat
  deriving DecidableEq, Repr

/-- What the code takes from outside the sources: the width of `int`, the
operator table behind `Operator.GetInfo`, the function variable
`CallBuiltinOp`, and the arithmetic of the host that `reflect` conversion relies
on (float rounding, rune encoding, the structure of composite types). -/
structure Env where
  /-- Width in bits of `int`, `uint` and `uintptr`. -/
  intBits : Nat
  /-- The call `op.GetInfo()`; `none` for an unknown operator. -/
  getInfo : Operator → Option OperatorInfo
  /-- The call `CallBuiltinOp(kind, op, args...)`; `none` when it panics. -/
  callBuiltinOp : Kind → Operator → List Value → Option Value
  /-- The conversion `float64(x)` of an integer `x`. -/
  intToFloat : Int → Nat
  /-- A `float64` rounded to the precision of a float kind. -/
  roundFloat : Kind → Nat → Nat
  /-- The conversion `int64(f)` of a `float64`. -/
  floatToInt : Nat → Int
  /-- The conversion `uint64(f)` of a `float64`. -/
  floatToUint : Nat → Nat
  /-- The conversion `string(rune(x))` of an integer `x`. -/
  runeString : Int → String
  /-- Convertibility between types that `reflect` decides from the structure of
  composite types (identical underlying types, pointers, interfaces, slices). -/
  convertibleOther : GoType → GoType → Bool
  /-- The payload of such a conversion; `none` when it panics: a structural
  conversion can fail on the value although the types are convertible (a slice
  shorter than the array, or array pointer, it is converted to). -/
  convOther : Value → GoType → Option Raw

/-! ## `reflect` conversion -/

/-- Signed kinds `Int .. Int64`. -/
def isIntKind (k : Kind) : Bool :=
  decide (reflect.Int ≤ k) && decide (k ≤ reflect.Int64)

/-- Unsigned kinds `Uint .. Uintptr`. -/
def isUintKind (k : Kind) : Bool :=
  decide (reflect.Uint ≤ k) && decide (k ≤ reflect.Uintptr)

/-- Kinds `Float32`, `Float64`. -/
def isFloatKind (k : Kind) : Bool :=
  decide (k = reflect.Float32) || decide (k = reflect.Float64)

/-- Kinds `Complex64`, `Complex128`. -/
def isComplexKind (k : Kind) : Bool :=
  decide (k = reflect.Complex64) || decide (k = reflect.Complex128)

/-- Size in bits of an integer kind. -/
def kindBits (env : Env) (k : Kind) : Nat :=
  if k = reflect.Int8 ∨ k = reflect.Uint8 then 8
  else if k = reflect.Int16 ∨ k = reflect.Uint16 then 16
  else if k = reflect.Int32 ∨ k = reflect.Uint32 then 32
  else if k = reflect.Int64 ∨ k = reflect.Uint64 then 64
  else env.intBits

/-- Two-complement reading of the low `bits` bits of `x` as a signed number. -/
def wrapSigned (bits : Nat) (x : Int) : Int :=
  (x + 2 ^ (bits - 1)) % 2 ^ bits - 2 ^ (bits - 1)

/-- The low `bits` bits of `x` as an unsigned number. -/
def wrapUnsigned (bits : Nat) (x : Int) : Nat :=
  (x % 2 ^ bits).toNat

/-- The converters of `reflect` (`convertOp`). -/
inductive ConvOp where
  | cvtInt | cvtUint | cvtIntFloat | cvtUintFloat | cvtIntString | cvtUintString
  | cvtFloatInt | cvtFloatUint | cvtFloat | cvtComplex | cvtDirect | cvtT2I | cvtOther
  deriving DecidableEq, Repr

/-- The empty-interface type, `exec.TyEmptyInterface`. -/
def exec.TyEmptyInterface : GoType := ⟨"interface \x7b\x7d", reflect.Interface⟩

/-- The function `convertOp(dst, src)` of `reflect`: the converter from `src` to `dst`, or
`none` when `src` is not convertible to `dst`. Numeric and string sources are
decided by kind, in the order of the library; same-kind basic types have
identical underlying types; every type implements the empty interface. -/
def convertOp (env : Env) (dst src : GoType) : Option ConvOp :=
  let numeric : Option ConvOp :=
    if isIntKind src.kind then
      if isIntKind dst.kind || isUintKind dst.kind then some .cvtInt
      else if isFloatKind dst.kind then some .cvtIntFloat
      else if dst.kind = reflect.String then some .cvtIntString
      else none
    else if isUintKind src.kind then
      if isIntKind dst.kind || isUintKind dst.kind then some .cvtUint
      else if isFloatKind dst.kind then some .cvtUintFloat
      else if dst.kind = reflect.String then some .cvtUintString
      else none
    else if isFloatKind src.kind then
      if isIntKind dst.kind then some .cvtFloatInt
      else if isUintKind dst.kind then some .cvtFloatUint
      else if isFloatKind dst.kind then some .cvtFloat
      else none
    else if isComplexKind src.kind then
      if isComplexKind dst.kind then some .cvtComplex else none
    else none
  match numeric with
  | some op => some op
  | none =>
    if src.kind = dst.kind ∧
        (src.kind = reflect.Bool ∨ src.kind = reflect.String ∨
          src.kind = reflect.UnsafePointer) then some .cvtDirect
    else if dst = exec.TyEmptyInterface then some .cvtT2I
    else if env.convertibleOther dst src then some .cvtOther
    else none

/-- The method `reflect.Type.ConvertibleTo`. -/
def GoType.ConvertibleTo (env : Env) (styp t : GoType) : Bool :=
  (convertOp env t styp).isSome

/-- Whether the payload of a value is the one its kind stores. -/
def Value.WellFormed (v : Value) : Bool :=
  match v.raw with
  | .int _ => isIntKind v.typ.kind
  | .uint _ => isUintKind v.typ.kind
  | .float _ => isFloatKind v.typ.kind
  | .complex _ _ => isComplexKind v.typ.kind
  | .str _ => decide (v.typ.kind = reflect.String)
  | .bool _ => decide (v.typ.kind = reflect.Bool)
  | .boxed _ _ _ => false
  | .other _ =>
    !(isIntKind v.typ.kind || isUintKind v.typ.kind || isFloatKind v.typ.kind ||
      isComplexKind v.typ.kind || decide (v.typ.kind = reflect.String) ||
      decide (v.typ.kind = reflect.Bool) || decide (v.typ.kind = reflect.Interface))

/-- The result of `makeInt(bits, t)`: an integer truncated to the width of the
integer type `t`. -/
def makeInt (env : Env) (x : Int) (t : GoType) : Value :=
  if isIntKind t.kind then ⟨t, .int (wrapSigned (kindBits env t.kind) x)⟩
  else ⟨t, .uint (wrapUnsigned (kindBits env t.kind) x)⟩

/-- The float kind of the parts of a complex kind. -/
def partKind (k : Kind) : Kind :=
  if k = reflect.Complex64 then reflect.Float32 else reflect.Float64

/-- The method `reflect.Value.Convert`: it panics when there is no converter, and
when a structural converter panics on the value. A payload that does not fit the
kind of its type cannot occur in Go and is rejected. -/
def Value.Convert (env : Env) (sval : Value) (t : GoType) : Except Err Value :=
  match convertOp env t sval.typ with
  | none => .error .convert
  | some .cvtInt =>
    match sval.raw with
    | .int i => .ok (makeInt env i t)
    | _ => .error .convert
  | some .cvtUint =>
    match sval.raw with
    | .uint n => .ok (makeInt env n t)
    | _ => .error .convert
  | some .cvtIntFloat =>
    match sval.raw with
    | .int i => .ok ⟨t, .float (env.roundFloat t.kind (env.intToFloat i))⟩
    | _ => .error .convert
  | some .cvtUintFloat =>
    match sval.raw with
    | .uint n => .ok ⟨t, .float (env.roundFloat t.kind (env.intToFloat n))⟩
    | _ => .error .convert
  | some .cvtIntString =>
    match sval.raw with
    | .int i => .ok ⟨t, .str (env.runeString i)⟩
    | _ => .error .convert
  | some .cvtUintString =>
    match sval.raw with
    | .uint n => .ok ⟨t, .str (env.runeString n)⟩
    | _ => .error .convert
  | some .cvtFloatInt =>
    match sval.raw with
    | .float f => .ok (makeInt env (env.floatToInt f) t)
    | _ => .error .convert
  | some .cvtFloatUint =>
    match sval.raw with
    | .float f => .ok (makeInt env (env.floatToUint f) t)
    | _ => .error .convert
  | some .cvtFloat =>
    match sval.raw with
    | .float f => .ok ⟨t, .float (env.roundFloat t.kind f)⟩
    | _ => .error .convert
  | some .cvtComplex =>
    match sval.raw with
    | .complex re im =>
      .ok ⟨t, .complex (env.roundFloat (partKind t.kind) re)
        (env.roundFloat (partKind t.kind) im)⟩
    | _ => .error .convert
  | some .cvtDirect => .ok ⟨t, sval.raw⟩
  | some .cvtT2I => .ok ⟨t, .boxed sval.typ.name sval.typ.kind sval.raw⟩
  | some .cvtOther =>
    match env.convOther sval t with
    | some r => .ok ⟨t, r⟩
    | none => .error .convert

/-- The method `reflect.Value.Interface`: the value as an interface; for a value of
interface type that is its content. -/
def Value.Interface (v : Value) : Value :=
  match v.raw with
  | .boxed name kind r => if v.typ.kind = reflect.Interface then ⟨⟨name, kind⟩, r⟩ else v
  | _ => v

/-- Modelled from the spec: `exec.TypeFromKind` is declared in a file of
`exec.spec` that is not among the sources. It gives the predeclared type of a
concrete kind; kinds without a predeclared type give nil (`none`). -/
def exec.TypeFromKind (kind : Kind) : Option GoType :=
  if kind = reflect.Bool then some ⟨"bool", kind⟩
  else if kind = reflect.Int then some ⟨"int", kind⟩
  else if kind = reflect.Int8 then some ⟨"int8", kind⟩
  else if kind = reflect.Int16 then some ⟨"int16", kind⟩
  else if kind = reflect.Int32 then some ⟨"int32", kind⟩
  else if kind = reflect.Int64 then some ⟨"int64", kind⟩
  else if kind = reflect.Uint then some ⟨"uint", kind⟩
  else if kind = reflect.Uint8 then some ⟨"uint8", kind⟩
  else if kind = reflect.Uint16 then some ⟨"uint16", kind⟩
  else if kind = reflect.Uint32 then some ⟨"uint32", kind⟩
  else if kind = reflect.Uint64 then some ⟨"uint64", kind⟩
  else if kind = reflect.Uintptr then some ⟨"uintptr", kind⟩
  else if kind = reflect.Float32 then some ⟨"float32", kind⟩
  else if kind = reflect.Float64 then some ⟨"float64", kind⟩
  else if kind = reflect.Complex64 then some ⟨"complex64", kind⟩
  else if kind = reflect.Complex128 then some ⟨"complex128", kind⟩
  else if kind = reflect.String then some ⟨"string", kind⟩
  else if kind = reflect.UnsafePointer then some ⟨"unsafe.Pointer", kind⟩
  else none

/-- The type `float64`, `exec.TyFloat64`. -/
def exec.TyFloat64 : GoType := ⟨"float64", reflect.Float64⟩

/-- The type `int64`, the dynamic type tested by the assertion `p.v.(int64)`. -/
def tyInt64 : GoType := ⟨"int64", reflect.Int64⟩

/-! ## Constants (`constVal`) -/

/-- The type `exec.Reserved`, a reserved instruction position. -/
abbrev exec.Reserved := Int

/-- The constant `exec.InvalidReserved`, an invalid reserved position. -/
def exec.InvalidReserved : exec.Reserved := -1

/-- A call made on an `exec.Builder`. -/
inductive BuilderCall where
  | ReservedAsPush (r : exec.Reserved) (v : Value)
  deriving DecidableEq, Repr

/-- An `exec.Builder`, as the trace of the calls made on it, oldest first. -/
abbrev Builder := List BuilderCall

/-- The method `Reserved.Push`, which calls `b.ReservedAsPush(p, val)`. -/
def exec.Reserved.Push (p : exec.Reserved) (b : Builder) (val : Value) : Builder :=
  b ++ [BuilderCall.ReservedAsPush p val]

/-- Source `constVal`. -/
structure constVal where
  v : Value
  kind : Kind
  reserve : exec.Reserved
  deriving DecidableEq, Repr

/-- Source `newConstVal`. -/
def newConstVal (v : Value) (kind : Kind) : constVal :=
  { v := v, kind := kind, reserve := exec.InvalidReserved }

/-- Source `realKindOf`. -/
def realKindOf (kind : Kind) : Kind :=
  if kind = astutil.ConstUnboundInt then reflect.Int64
  else if kind = astutil.ConstUnboundFloat then reflect.Float64
  else if kind = astutil.ConstUnboundComplex then reflect.Complex128
  else kind

/-- Source `boundConst`. A complex target with an integer or float source goes
through `float64` and yields `complex(fval, 0)`, a `complex128`. -/
def boundConst (env : Env) (v : Value) (t : GoType) : Except Err Value :=
  let sval := v
  let kind := t.kind
  if (kind = reflect.Complex128 ∨ kind = reflect.Complex64) ∧
      (reflect.Int ≤ sval.typ.kind ∧ sval.typ.kind ≤ reflect.Float64) then
    match Value.Convert env sval exec.TyFloat64 with
    | .error e => .error e
    | .ok f =>
      match f.raw with
      | .float fval =>
        .ok ⟨⟨"complex128", reflect.Complex128⟩, .complex fval 0⟩
      | _ => .error .convert
  else
    match Value.Convert env sval t with
    | .error e => .error e
    | .ok r => .ok (Value.Interface r)

/-- Source `constIsConvertible`. -/
def constIsConvertible (env : Env) (v : Value) (t : GoType) : Bool :=
  let styp := v.typ
  let skind := styp.kind
  if t.kind = reflect.String then decide (skind = reflect.String)
  else if t.kind = reflect.Complex128 ∨ t.kind = reflect.Complex64 then
    decide (reflect.Int ≤ skind) && decide (skind ≤ reflect.Complex128)
  else GoType.ConvertibleTo env styp t

/-- Source `constVal.boundKind`. -/
def constVal.boundKind (p : constVal) : Except Err Kind :=
  if isConstBound p.kind then .ok p.kind
  else if p.kind = astutil.ConstUnboundInt then
    if p.v.typ = tyInt64 then .ok reflect.Int else .ok reflect.Uint
  else if p.kind = astutil.ConstUnboundFloat then .ok reflect.Float64
  else if p.kind = astutil.ConstUnboundComplex then .ok reflect.Complex128
  else .error .unexpectedKind

/-- Source `constVal.boundType`. -/
def constVal.boundType (p : constVal) : Except Err (Option GoType) :=
  match p.boundKind with
  | .error e => .error e
  | .ok k => .ok (exec.TypeFromKind k)

/-- The outcome of `constVal.bound`: the panic it ended in (`none` when it
returned), and the constant and the builder as the call left them. -/
structure BoundOutcome where
  err : Option Err
  p : constVal
  b : Builder
  deriving DecidableEq

/-- Source `constVal.bound`. -/
def constVal.bound (env : Env) (p : constVal) (t : GoType) (b : Builder) : BoundOutcome :=
  let kind := t.kind
  if p.reserve = exec.InvalidReserved then
    if p.kind ≠ kind then
      if t = exec.TyEmptyInterface then ⟨none, p, b⟩
      else ⟨some .typeMismatch, p, b⟩
    else ⟨none, p, b⟩
  else
    match boundConst env p.v t with
    | .error e => ⟨some e, p, b⟩
    | .ok v => ⟨none, { p with v := v, kind := kind }, exec.Reserved.Push p.reserve b v⟩

/-! ## Constant folding -/

/-- The test `(i.InFirst & (1 << kindReal)) == 0` on `uint64` operands: a shift
by 64 or more gives 0. -/
def maskRejects (i : OperatorInfo) (kindReal : Kind) : Bool :=
  decide (i.InFirst &&& ((1 <<< kindReal) % 2 ^ 64) = 0)

/-- The kind `kindReal` computed by `unaryOp`. -/
def unaryKindReal (x : constVal) : Kind :=
  if isConstBound x.kind then x.kind else realKindOf x.kind

/-- Source `unaryOp`. -/
def unaryOp (env : Env) (op : Operator) (x : constVal) : Except Err constVal :=
  match env.getInfo op with
  | none => .error .unknownOperator
  | some i =>
    let xkind := x.kind
    let kindReal := unaryKindReal x
    if maskRejects i kindReal then .error .unaryInvalidOperand
    else
      match exec.TypeFromKind kindReal with
      | none => .error .nilType
      | some t =>
        match boundConst env x.v t with
        | .error e => .error e
        | .ok vx =>
          match env.callBuiltinOp kindReal op [vx] with
          | none => .error .builtinOp
          | some v => .ok { kind := xkind, v := v, reserve := -1 }

/-- The pair `(kind, kindReal)` computed by `binaryOp`. -/
def binaryKinds (x y : constVal) : Kind × Kind :=
  let xkind := x.kind
  let ykind := y.kind
  if isConstBound xkind then (xkind, xkind)
  else if isConstBound ykind then (ykind, ykind)
  else if xkind < ykind then (ykind, realKindOf ykind)
  else (xkind, realKindOf xkind)

/-- Source `binaryOp`. -/
def binaryOp (env : Env) (op : Operator) (x y : constVal) : Except Err constVal :=
  match env.getInfo op with
  | none => .error .unknownOperator
  | some i =>
    let kind := (binaryKinds x y).1
    let kindReal := (binaryKinds x y).2
    if maskRejects i kindReal then .error .binaryInvalidOperand
    else
      match exec.TypeFromKind kindReal with
      | none => .error .nilType
      | some t =>
        match boundConst env x.v t with
        | .error e => .error e
        | .ok vx =>
          match boundConst env y.v t with
          | .error e => .error e
          | .ok vy =>
            match env.callBuiltinOp kindReal op [vx, vy] with
            | none => .error .builtinOp
            | some v => .ok { kind := kind, v := v, reserve := -1 }

/-! ## The value model (`iValue`) -/

/-- Source `iValue`, with its implementations `goValue`, `nonValue`,
`funcResults`, `constVal`, `qlFunc` and `goFunc` as the variants. -/
inductive iValue where
  | goValue (t : GoType)
  | nonValue
  | funcResults (tfn : FuncType)
  | constVal (c : Goplus.constVal)
  | qlFunc (t : FuncType)
  | goFunc (t : FuncType)
  deriving DecidableEq, Repr

/-- Method `Kind` of the variants. -/
def iValue.Kind : iValue → Except Err Kind
  | .goValue t => .ok t.kind
  | .nonValue => .ok reflect.Invalid
  | .funcResults _ => .error .dontCallMe
  | .constVal c => .ok c.kind
  | .qlFunc _ => .ok reflect.Func
  | .goFunc _ => .ok reflect.Func

/-- Method `Type` of the variants; `none` is the nil type. -/
def iValue.Type : iValue → Except Err (Option GoType)
  | .goValue t => .ok (some t)
  | .nonValue => .ok none
  | .funcResults _ => .error .dontCallMe
  | .constVal c => if isConstBound c.kind then .ok (exec.TypeFromKind c.kind) else .error .unbounded
  | .qlFunc t => .ok (some t.typ)
  | .goFunc t => .ok (some t.typ)

/-- Method `NumValues` of the variants. -/
def iValue.NumValues : iValue → Nat
  | .goValue _ => 1
  | .nonValue => 0
  | .funcResults tfn => tfn.outs.length
  | .constVal _ => 1
  | .qlFunc _ => 1
  | .goFunc _ => 1

/-- Method `Value` of the variants; `tfn.Out(i)` panics out of range. -/
def iValue.Value (p : iValue) (i : Nat) : Except Err iValue :=
  match p with
  | .funcResults tfn =>
    match tfn.outs.get? i with
    | some t => .ok (.goValue t)
    | none => .error .indexOutOfRange
  | _ => .ok p

/-- Source `newFuncResults`. -/
def newFuncResults (tfn : FuncType) : Except Err iValue :=
  if tfn.outs.length = 1 then
    match tfn.outs.get? 0 with
    | some t => .ok (.goValue t)
    | none => .error .indexOutOfRange
  else .ok (.funcResults tfn)

/-- Source `boundType`. -/
def boundType (v : iValue) : Except Err (Option GoType) :=
  match v with
  | .constVal c => c.boundType
  | _ => v.Type

/-! ## Element-type unification (`boundElementType`) -/

/-- The slice access `elts[i]`. -/
def goIndex (elts : List iValue) (i : Int) : Except Err iValue :=
  if i < 0 then .error .indexOutOfRange
  else
    match elts.get? i.toNat with
    | some e => .ok e
    | none => .error .indexOutOfRange

/-- The loop `for i := base; i < max; i += step { body }` over `elts[i]`, that
the three passes of `boundElementType` share. The body either panics, makes the
function return nil (`none`), or continues with a new state. `i += step` wraps
at the width of `int`. Every round that does not panic reads a position inside
the slice, and with `step != 0` no position is read twice, so `len(elts) + 1`
rounds suffice; a loop that needs more has `step == 0` and never ends. -/
def forElts {σ : Type} (env : Env) (elts : List iValue) (max step : Int)
    (body : σ → iValue → Except Err (Option σ)) : Nat → Int → σ → Except Err (Option σ)
  | 0, _, _ => .error .diverges
  | fuel + 1, i, s =>
    if i < max then
      match goIndex elts i with
      | .error e => .error e
      | .ok e =>
        match body s e with
        | .error e => .error e
        | .ok none => .ok none
        | .ok (some s) => forElts env elts max step body fuel (wrapSigned env.intBits (i + step)) s
    else .ok (some s)

/-- First pass: the state is `(tBound, kindUnbound)`. -/
def scanBody (s : Option GoType × Kind) (e : iValue) : Except Err (Option (Option GoType × Kind)) :=
  let tBound := s.1
  let kindUnbound := s.2
  if e.NumValues ≠ 1 then .error .multipleValues
  else
    match e.Kind with
    | .error err => .error err
    | .ok kind =>
      if !isConstBound kind then
        if kindUnbound < kind then .ok (some (tBound, kind)) else .ok (some (tBound, kindUnbound))
      else
        match e.Type with
        | .error err => .error err
        | .ok t =>
          if tBound ≠ t then
            if tBound ≠ none then .ok none
            else .ok (some (t, kindUnbound))
          else .ok (some (tBound, kindUnbound))

/-- Second pass, when a bound type was seen: every constant must be
convertible to it. -/
def convertibleBody (env : Env) (tBound : GoType) (_s : Unit) (e : iValue) :
    Except Err (Option Unit) :=
  match e with
  | .constVal c => if !constIsConvertible env c.v tBound then .ok none else .ok (some ())
  | _ => .ok (some ())

/-- Third pass, when no bound type was seen: the state is `kindBound`. -/
def defaultBody (kindUnbound : Kind) (kindBound : Kind) (e : iValue) :
    Except Err (Option Kind) :=
  match e with
  | .constVal c =>
    if c.kind = kindUnbound then
      match c.boundKind with
      | .error err => .error err
      | .ok kind =>
        if kind ≠ kindBound then
          if kindBound ≠ 0 then .ok none
          else .ok (some kind)
        else .ok (some kindBound)
    else .ok (some kindBound)
  | _ => .ok (some kindBound)

/-- Source `boundElementType`; `.ok none` is the nil type. -/
def boundElementType (env : Env) (elts : List iValue) (base max step : Int) :
    Except Err (Option GoType) :=
  let fuel := elts.length + 1
  match forElts env elts max step scanBody fuel base (none, 0) with
  | .error e => .error e
  | .ok none => .ok none
  | .ok (some (tBound, kindUnbound)) =>
    match tBound with
    | some tb =>
      match forElts env elts max step (convertibleBody env tb) fuel base () with
      | .error e => .error e
      | .ok none => .ok none
      | .ok (some _) => .ok (some tb)
    | none =>
      match forElts env elts max step (defaultBody kindUnbound) fuel base 0 with
      | .error e => .error e
      | .ok none => .ok none
      | .ok (some kindBound) => .ok (exec.TypeFromKind kindBound)

/-! ## The passes of `boundElementType` as folds over the visited elements -/

/-- A pass over a list of elements: the body is run on each element in turn until
it panics or makes the function return nil. -/
def foldElts {σ : Type} (body : σ → iValue → Except Err (Option σ)) :
    σ → List iValue → Except Err (Option σ)
  | s, [] => .ok (some s)
  | s, e :: es =>
    match body s e with
    | .error err => .error err
    | .ok none => .ok none
    | .ok (some s') => foldElts body s' es

/-- The elements at positions `i`, `i + step`, `i + 2 * step`, ... below `max`, at
most `n` of them, up to the first position outside the slice. -/
def visitedFrom (elts : List iValue) (max step : Int) : Nat → Int → List iValue
  | 0, _ => []
  | n + 1, i =>
    if i < max then
      match goIndex elts i with
      | .ok e => e :: visitedFrom elts max step n (i + step)
      | .error _ => []
    else []

/-- The elements `boundElementType(elts, base, max, step)` visits: those at
positions `base`, `base + step`, ... below `max`. -/
def visited (elts : List iValue) (base max step : Int) : List iValue :=
  visitedFrom elts max step (elts.length + 1) base

/-- A stride that stays inside the slice and whose index does not overflow
`int`: `0 ≤ base`, `1 ≤ step`, `max ≤ len(elts)` and `max + step` fits. -/
def StrideOk (env : Env) (elts : List iValue) (base max step : Int) : Prop :=
  0 ≤ base ∧ 0 < step ∧ max ≤ elts.length ∧ max + step ≤ 2 ^ (env.intBits - 1)

/-- The three passes of `boundElementType` run on a list of elements. -/
def unifyElts (env : Env) (L : List iValue) : Except Err (Option GoType) :=
  match foldElts scanBody (none, 0) L with
  | .error e => .error e
  | .ok none => .ok none
  | .ok (some (tBound, kindUnbound)) =>
    match tBound with
    | some tb =>
      match foldElts (convertibleBody env tb) () L with
      | .error e => .error e
      | .ok none => .ok none
      | .ok (some _) => .ok (some tb)
    | none =>
      match foldElts (defaultBody kindUnbound) 0 L with
      | .error e => .error e
      | .ok none => .ok none
      | .ok (some kindBound) => .ok (exec.TypeFromKind kindBound)

/-- The invariant `newFuncResults` establishes: a `funcResults` wrapper never
stands for exactly one output (a single output is a `goValue`). -/
def iValue.Valid : iValue → Bool
  | .funcResults tfn => decide (tfn.outs.length ≠ 1)
  | _ => true

/-- An element whose kind is a concrete kind. -/
def iValue.isBound (e : iValue) : Bool :=
  match e.Kind with
  | .ok k => isConstBound k
  | .error _ => false

/-- An element that is a constant of an unbound kind. -/
def iValue.isUnboundConst : iValue → Bool
  | .constVal c => !isConstBound c.kind
  | _ => false

/-- The type `int`, `exec.TyInt`. -/
def exec.TyInt : GoType := ⟨"int", reflect.Int⟩

/-- The type `int8`, `exec.TyInt8`. -/
def exec.TyInt8 : GoType := ⟨"int8", reflect.Int8⟩

/-- The type `string`, `exec.TyString`. -/
def exec.TyString : GoType := ⟨"string", reflect.String⟩

deriving instance DecidableEq for Except

/-- A sequence of `bound` calls on one constant and one builder, one call per
target type; a panic ends the sequence. -/
def boundSeq (env : Env) (p : constVal) (b : Builder) : List GoType → BoundOutcome
  | [] => ⟨none, p, b⟩
  | t :: ts =>
    match (constVal.bound env p t b).err with
    | some _ => constVal.bound env p t b
    | none => boundSeq env (constVal.bound env p t b).p (constVal.bound env p t b).b ts

/-- Whether a value is a `funcResults` wrapper. -/
def iValue.isFuncResults : iValue → Bool
  | .funcResults _ => true
  | _ => false

/-! ## A sample environment -/

/-- A 64-bit host with one operator, number 0, that accepts the integer kinds
and adds its operands. The float arithmetic of the host is not evaluated: this
environment only serves to run the code on integer and string inputs. Of the
structural conversions it has the one from the slice type `[]int` to the array
type `[4]int`; the payload of a slice is `Raw.other n` with `n` its length, and
the conversion panics on a slice of fewer than 4 elements. -/
def sampleEnv : Env where
  intBits := 64
  getInfo := fun op => if op = 0 then some ⟨2 ^ 13 - 4⟩ else none
  callBuiltinOp := fun _ _ args =>
    match args with
    | [⟨t, .int a⟩, ⟨_, .int b⟩] => some ⟨t, .int (wrapSigned 64 (a + b))⟩
    | [⟨t, .int a⟩] => some ⟨t, .int a⟩
    | _ => none
  intToFloat := fun _ => 0
  roundFloat := fun _ f => f
  floatToInt := fun _ => 0
  floatToUint := fun _ => 0
  runeString := fun x =>
    if 0 ≤ x ∧ (x < 0xd800 ∨ (0xdfff < x ∧ x < 0x110000)) then
      String.singleton (Char.ofNat x.toNat)
    else "\uFFFD"
  convertibleOther := fun dst src =>
    decide (dst = ⟨"[4]int", reflect.Array⟩ ∧ src = ⟨"[]int", reflect.Slice⟩)
  convOther := fun v _ =>
    match v.raw with
    | .other n => if 4 ≤ n then some (.other n) else none
    | r => some r


/-! ## Lemmas -/

theorem two_pow_mod_word (k : Nat) : (1 <<< k) % 2 ^ 64 = if k < 64 then 2 ^ k else 0 := by
  rw [Nat.one_shiftLeft]
  split
  · next h => exact Nat.mod_eq_of_lt (Nat.pow_lt_pow_right (by decide) h)
  · next h =>
    have h64 : 64 ≤ k := Nat.le_of_not_lt h
    obtain ⟨d, rfl⟩ := Nat.exists_eq_add_of_le h64
    rw [Nat.pow_add]
    exact Nat.mul_mod_right _ _

/-- Masking with a single bit gives zero exactly when that bit is not set. -/
theorem and_two_pow_eq_zero (x k : Nat) : x &&& 2 ^ k = 0 ↔ x.testBit k = false := by
  constructor
  · intro h
    have := congrArg (fun n => n.testBit k) h
    simpa [Nat.testBit_and, Nat.testBit_two_pow_self] using this
  · intro h
    apply Nat.eq_of_testBit_eq
    intro j
    rw [Nat.testBit_and, Nat.testBit_two_pow, Nat.zero_testBit]
    by_cases hj : k = j
    · subst hj; simp [h]
    · simp [hj]

/-- On a 64-bit mask the test of the code is the test of bit `k`. -/
theorem maskRejects_eq (i : OperatorInfo) (k : Kind) (hi : i.InFirst < 2 ^ 64) :
    maskRejects i k = !(i.InFirst.testBit k) := by
  unfold maskRejects
  rw [two_pow_mod_word]
  by_cases hk : k < 64
  · rw [if_pos hk]
    cases hb : i.InFirst.testBit k
    · simpa using (and_two_pow_eq_zero _ _).2 hb
    · have : ¬ (i.InFirst &&& 2 ^ k = 0) := by
        intro h0
        rw [(and_two_pow_eq_zero _ _).1 h0] at hb
        cases hb
      simpa using this
  · rw [if_neg hk]
    have hlt : i.InFirst < 2 ^ k :=
      Nat.lt_of_lt_of_le hi (Nat.pow_le_pow_right (by decide) (Nat.le_of_not_lt hk))
    simp [Nat.testBit_lt_two_pow hlt]

/-- The only panic of `Convert` is the conversion panic. -/
theorem Convert_error (env : Env) (v : Value) (t : GoType) (e : Err)
    (h : Value.Convert env v t = .error e) : e = Err.convert := by
  unfold Value.Convert at h
  split at h <;> first
    | (injection h with h; exact h.symm)
    | (split at h <;> first | (injection h with h; exact h.symm) | cases h)
    | cases h

/-- The only panic of `boundConst` is the conversion panic. -/
theorem boundConst_error (env : Env) (v : Value) (t : GoType) (e : Err)
    (h : boundConst env v t = .error e) : e = Err.convert := by
  unfold boundConst at h
  simp only at h
  split at h
  · split at h
    · next e' he =>
      injection h with h
      subst h
      exact Convert_error env _ _ _ he
    · split at h
      · cases h
      · injection h with h; exact h.symm
  · split at h
    · next e' he =>
      injection h with h
      subst h
      exact Convert_error env _ _ _ he
    · cases h

/-- A number that fits in `w` bits is not changed by wrapping. -/
theorem wrapSigned_of_fits (w : Nat) (i : Int) (hw : 0 < w)
    (hlo : -(2 ^ (w - 1)) ≤ i) (hhi : i < 2 ^ (w - 1)) : wrapSigned w i = i := by
  unfold wrapSigned
  have hp : (2 : Int) ^ w = 2 * 2 ^ (w - 1) := by
    obtain ⟨n, rfl⟩ := Nat.exists_eq_succ_of_ne_zero (Nat.pos_iff_ne_zero.1 hw)
    simp [pow_succ, mul_comm]
  rw [hp, Int.emod_eq_of_lt (by omega) (by omega)]
  omega

/-- The invalid-operand panic of `unaryOp` is raised exactly by the mask test. -/
theorem unaryOp_invalid_iff (env : Env) (op : Operator) (i : OperatorInfo) (x : constVal)
    (hi : env.getInfo op = some i) (hw : i.InFirst < 2 ^ 64) :
    unaryOp env op x = .error Err.unaryInvalidOperand ↔
      i.InFirst.testBit (unaryKindReal x) = false := by
  unfold unaryOp
  simp only [hi, maskRejects_eq _ _ hw]
  cases hb : i.InFirst.testBit (unaryKindReal x)
  · simp
  · simp only [Bool.not_true, Bool.false_eq_true, if_false]
    constructor
    · intro h
      exfalso
      split at h
      · cases h
      · split at h
        · next e he =>
          have := boundConst_error env _ _ _ he
          subst this
          cases h
        · split at h <;> cases h
    · intro h
      cases h

/-- The invalid-operand panic of `binaryOp` is raised exactly by the mask test. -/
theorem binaryOp_invalid_iff (env : Env) (op : Operator) (i : OperatorInfo) (x y : constVal)
    (hi : env.getInfo op = some i) (hw : i.InFirst < 2 ^ 64) :
    binaryOp env op x y = .error Err.binaryInvalidOperand ↔
      i.InFirst.testBit (binaryKinds x y).2 = false := by
  unfold binaryOp
  simp only [hi, maskRejects_eq _ _ hw]
  cases hb : i.InFirst.testBit (binaryKinds x y).2
  · simp
  · simp only [Bool.not_true, Bool.false_eq_true, if_false]
    constructor
    · intro h
      exfalso
      split at h
      · cases h
      · split at h
        · next e he =>
          have := boundConst_error env _ _ _ he
          subst this
          cases h
        · split at h
          · next e he =>
            have := boundConst_error env _ _ _ he
            subst this
            cases h
          · split at h <;> cases h
    · intro h
      cases h

/-- The real kind `binaryOp` computes, spelled out. -/
theorem binaryKinds_snd (x y : constVal) :
    (binaryKinds x y).2 =
      if isConstBound x.kind then x.kind
      else if isConstBound y.kind then y.kind
      else if x.kind < y.kind then realKindOf y.kind
      else realKindOf x.kind := by
  unfold binaryKinds
  simp only
  split
  · rfl
  · split
    · rfl
    · split <;> rfl

/-- An index inside the slice reads an element. -/
theorem goIndex_ok (elts : List iValue) (i : Int) (h0 : 0 ≤ i) (h1 : i < elts.length) :
    ∃ e, goIndex elts i = .ok e ∧ elts.get? i.toNat = some e := by
  have hlt : i.toNat < elts.length := by omega
  refine ⟨elts.get ⟨i.toNat, hlt⟩, ?_, List.get?_eq_get hlt⟩
  unfold goIndex
  rw [if_neg (by omega), List.get?_eq_get hlt]

/-- With a stride inside the slice and enough rounds, the loop is the pass over the
visited elements. -/
theorem forElts_eq_foldElts {σ : Type} (env : Env) (elts : List iValue) (max step : Int)
    (body : σ → iValue → Except Err (Option σ))
    (hstep : 0 < step) (hmax : max ≤ elts.length)
    (hov : max + step ≤ 2 ^ (env.intBits - 1)) :
    ∀ (fuel : Nat) (i : Int) (s : σ), 0 ≤ i → max - i ≤ fuel →
      forElts env elts max step body (fuel + 1) i s =
        foldElts body s (visitedFrom elts max step (fuel + 1) i) := by
  intro fuel
  induction fuel with
  | zero =>
    intro i s _ hle
    have hnlt : ¬ i < max := by omega
    simp [forElts, visitedFrom, hnlt, foldElts]
  | succ n ih =>
    intro i s h0 hle
    by_cases hlt : i < max
    · obtain ⟨e, he, _⟩ := goIndex_ok elts i h0 (by omega)
      have hw : 0 < env.intBits := by
        by_contra h
        have hz : env.intBits = 0 := by omega
        rw [hz] at hov
        simp at hov
        omega
      have hpos : (0 : Int) < 2 ^ (env.intBits - 1) := by positivity
      have hwrap : wrapSigned env.intBits (i + step) = i + step :=
        wrapSigned_of_fits _ _ hw (by omega) (by omega)
      rw [forElts, visitedFrom, if_pos hlt, if_pos hlt, he]
      simp only [foldElts]
      cases hb : body s e with
      | error err => rfl
      | ok r =>
        cases r with
        | none => rfl
        | some s' =>
          simp only [hwrap]
          exact ih (i + step) s' (by omega) (by omega)
    · rw [forElts, visitedFrom, if_neg hlt, if_neg hlt]
      rfl

/-- With a stride inside the slice, `boundElementType` is the three passes over the
visited elements. -/
theorem boundElementType_eq_unifyElts (env : Env) (elts : List iValue) (base max step : Int)
    (h : StrideOk env elts base max step) :
    boundElementType env elts base max step = unifyElts env (visited elts base max step) := by
  obtain ⟨hb, hs, hm, ho⟩ := h
  have hfuel : max - base ≤ (elts.length : Nat) := by omega
  unfold boundElementType unifyElts visited
  simp only [forElts_eq_foldElts env elts max step _ hs hm ho elts.length base _ hb hfuel]

/-- An arity-1 element that `newFuncResults` can have built reports a kind. -/
theorem kind_of_single (e : iValue) (h1 : e.NumValues = 1) (hv : e.Valid = true) :
    ∃ k, e.Kind = .ok k := by
  cases e with
  | goValue t => exact ⟨_, rfl⟩
  | nonValue => simp [iValue.NumValues] at h1
  | funcResults tfn => simp [iValue.NumValues, iValue.Valid] at h1 hv; exact absurd h1 hv
  | constVal c => exact ⟨_, rfl⟩
  | qlFunc t => exact ⟨_, rfl⟩
  | goFunc t => exact ⟨_, rfl⟩

/-- A bound element reports a type (possibly nil). -/
theorem type_of_bound (e : iValue) (hb : e.isBound = true) : ∃ t, e.Type = .ok t := by
  cases e with
  | goValue t => exact ⟨_, rfl⟩
  | nonValue => exact ⟨_, rfl⟩
  | funcResults tfn => simp [iValue.isBound, iValue.Kind] at hb
  | constVal c =>
    simp only [iValue.isBound, iValue.Kind] at hb
    exact ⟨exec.TypeFromKind c.kind, by simp [iValue.Type, hb]⟩
  | qlFunc t => exact ⟨_, rfl⟩
  | goFunc t => exact ⟨_, rfl⟩

/-- The first pass on one element, by cases. -/
theorem scanBody_unbound (s : Option GoType × Kind) (e : iValue) (k : Kind)
    (h1 : e.NumValues = 1) (hk : e.Kind = .ok k) (hu : isConstBound k = false) :
    scanBody s e = .ok (some (s.1, if s.2 < k then k else s.2)) := by
  unfold scanBody
  simp only [h1, hk, hu]
  by_cases hlt : s.2 < k <;> simp [hlt]

/-- The first pass on one bound element. -/
theorem scanBody_bound (s : Option GoType × Kind) (e : iValue) (k : Kind) (t : Option GoType)
    (h1 : e.NumValues = 1) (hk : e.Kind = .ok k) (hb : isConstBound k = true)
    (ht : e.Type = .ok t) :
    scanBody s e =
      if s.1 ≠ t then (if s.1 ≠ none then .ok none else .ok (some (t, s.2)))
      else .ok (some (s.1, s.2)) := by
  unfold scanBody
  simp [h1, hk, hb, ht]

/-- The first pass does not panic on elements of arity one. -/
theorem scan_no_panic (L : List iValue) :
    ∀ s, (∀ e ∈ L, e.NumValues = 1 ∧ e.Valid = true) →
      ∃ r, foldElts scanBody s L = .ok r := by
  induction L with
  | nil => intro s _; exact ⟨_, rfl⟩
  | cons e es ih =>
    intro s h
    obtain ⟨h1, hv⟩ := h e (List.mem_cons_self _ _)
    have htl : ∀ e' ∈ es, e'.NumValues = 1 ∧ e'.Valid = true :=
      fun e' he' => h e' (List.mem_cons_of_mem _ he')
    obtain ⟨k, hk⟩ := kind_of_single e h1 hv
    cases hb : isConstBound k with
    | false =>
      simp only [foldElts, scanBody_unbound s e k h1 hk hb]
      exact ih _ htl
    | true =>
      have hbe : e.isBound = true := by simp [iValue.isBound, hk, hb]
      obtain ⟨t, ht⟩ := type_of_bound e hbe
      simp only [foldElts, scanBody_bound s e k t h1 hk hb ht]
      by_cases hne : s.1 ≠ t
      · by_cases hn : s.1 ≠ none
        · rw [if_pos hne, if_pos hn]
          exact ⟨_, rfl⟩
        · rw [if_pos hne, if_neg hn]
          exact ih _ htl
      · rw [if_neg hne]
        exact ih _ htl

/-- One round of the first pass keeps a bound type once seen, and agrees with the
type of the element it read. -/
theorem scanBody_step (s s1 : Option GoType × Kind) (e : iValue)
    (h : scanBody s e = .ok (some s1)) :
    (∀ T0, s.1 = some T0 → s1.1 = some T0) ∧
      (e.isBound = true → ∀ T, e.Type = .ok (some T) → s1.1 = some T) := by
  unfold scanBody at h
  simp only at h
  split at h
  · cases h
  · split at h
    · cases h
    · next kind hk =>
      split at h
      · next hub =>
        have hs1 : s1.1 = s.1 := by
          split at h <;> (injection h with h; injection h with h; rw [← h])
        refine ⟨fun T0 h0 => (by rw [hs1, h0]), fun hb => ?_⟩
        simp [iValue.isBound, hk] at hb
        simp [hb] at hub
      · split at h
        · cases h
        · next t ht =>
          split at h
          · next hne =>
            split at h
            · cases h
            · next hnone =>
              injection h with h; injection h with h
              have hn : s.1 = none := by
                by_contra hc; exact hnone hc
              refine ⟨fun T0 h0 => (by rw [hn] at h0; cases h0), fun _ T hT => ?_⟩
              rw [ht] at hT
              injection hT with hT
              rw [← h, hT]
          · next heq =>
            injection h with h; injection h with h
            have he : s.1 = t := by
              by_contra hc; exact heq hc
            refine ⟨fun T0 h0 => (by rw [← h]; exact h0), fun _ T hT => ?_⟩
            rw [ht] at hT
            injection hT with hT
            rw [← h, he, hT]

/-- A first pass that ran to its end saw only bound elements of its final type. -/
theorem scan_inv (L : List iValue) :
    ∀ s s', foldElts scanBody s L = .ok (some s') →
      (∀ T0, s.1 = some T0 → s'.1 = some T0) ∧
        (∀ e ∈ L, e.isBound = true → ∀ T, e.Type = .ok (some T) → s'.1 = some T) := by
  induction L with
  | nil =>
    intro s s' h
    simp only [foldElts] at h
    injection h with h; injection h with h
    subst h
    exact ⟨fun _ h0 => h0, fun e he => by cases he⟩
  | cons e es ih =>
    intro s s' h
    simp only [foldElts] at h
    cases hb : scanBody s e with
    | error err => rw [hb] at h; cases h
    | ok r =>
      cases r with
      | none => rw [hb] at h; cases h
      | some s1 =>
        rw [hb] at h
        simp only at h
        obtain ⟨hstep1, hstep2⟩ := scanBody_step s s1 e hb
        obtain ⟨ih1, ih2⟩ := ih s1 s' h
        refine ⟨fun T0 h0 => ih1 T0 (hstep1 T0 h0), ?_⟩
        intro e' he' hbe T hT
        rcases List.mem_cons.1 he' with rfl | hmem
        · exact ih1 T (hstep2 hbe T hT)
        · exact ih2 e' hmem hbe T hT

/-- Two bound elements of different types make the first pass return nil. -/
theorem unifyElts_mismatch (env : Env) (L : List iValue)
    (hall : ∀ e ∈ L, e.NumValues = 1 ∧ e.Valid = true)
    (e₁ e₂ : iValue) (T U : GoType) (h₁ : e₁ ∈ L) (h₂ : e₂ ∈ L)
    (hb₁ : e₁.isBound = true) (hb₂ : e₂.isBound = true)
    (hT : e₁.Type = .ok (some T)) (hU : e₂.Type = .ok (some U)) (hne : T ≠ U) :
    unifyElts env L = .ok none := by
  obtain ⟨r, hr⟩ := scan_no_panic L (none, 0) hall
  cases r with
  | none => simp [unifyElts, hr]
  | some s' =>
    obtain ⟨_, hinv⟩ := scan_inv L _ _ hr
    have e1 := hinv e₁ h₁ hb₁ T hT
    have e2 := hinv e₂ h₂ hb₂ U hU
    rw [e1] at e2
    injection e2 with e2
    exact absurd e2 hne

/-- The first pass from a bound type `T` over elements bound to `T` only. -/
theorem scan_from_bound (T : GoType) (L : List iValue) :
    ∀ ku, (∀ e ∈ L, e.NumValues = 1 ∧ e.Valid = true) →
      (∀ e ∈ L, e.isBound = true → e.Type = .ok (some T)) →
      ∃ ku', foldElts scanBody (some T, ku) L = .ok (some (some T, ku')) := by
  induction L with
  | nil => intro ku _ _; exact ⟨ku, rfl⟩
  | cons e es ih =>
    intro ku hall hT
    obtain ⟨h1, hv⟩ := hall e (List.mem_cons_self _ _)
    have hall' : ∀ e' ∈ es, e'.NumValues = 1 ∧ e'.Valid = true :=
      fun e' he' => hall e' (List.mem_cons_of_mem _ he')
    have hT' : ∀ e' ∈ es, e'.isBound = true → e'.Type = .ok (some T) :=
      fun e' he' => hT e' (List.mem_cons_of_mem _ he')
    obtain ⟨k, hk⟩ := kind_of_single e h1 hv
    cases hb : isConstBound k with
    | false =>
      simp only [foldElts, scanBody_unbound _ e k h1 hk hb]
      exact ih _ hall' hT'
    | true =>
      have hbe : e.isBound = true := by simp [iValue.isBound, hk, hb]
      have ht := hT e (List.mem_cons_self _ _) hbe
      simp only [foldElts, scanBody_bound _ e k _ h1 hk hb ht, ne_eq, not_true_eq_false,
        if_false]
      exact ih _ hall' hT'

/-- The first pass over a list with a bound element, all bound to `T`, finds `T`. -/
theorem scan_to_bound (T : GoType) (L : List iValue) :
    ∀ ku, (∀ e ∈ L, e.NumValues = 1 ∧ e.Valid = true) →
      (∀ e ∈ L, e.isBound = true → e.Type = .ok (some T)) →
      (∃ e ∈ L, e.isBound = true) →
      ∃ ku', foldElts scanBody (none, ku) L = .ok (some (some T, ku')) := by
  induction L with
  | nil => intro ku _ _ hex; obtain ⟨e, he, _⟩ := hex; cases he
  | cons e es ih =>
    intro ku hall hT hex
    obtain ⟨h1, hv⟩ := hall e (List.mem_cons_self _ _)
    have hall' : ∀ e' ∈ es, e'.NumValues = 1 ∧ e'.Valid = true :=
      fun e' he' => hall e' (List.mem_cons_of_mem _ he')
    have hT' : ∀ e' ∈ es, e'.isBound = true → e'.Type = .ok (some T) :=
      fun e' he' => hT e' (List.mem_cons_of_mem _ he')
    obtain ⟨k, hk⟩ := kind_of_single e h1 hv
    cases hb : isConstBound k with
    | false =>
      simp only [foldElts, scanBody_unbound _ e k h1 hk hb]
      apply ih _ hall' hT'
      obtain ⟨e', he', hbe'⟩ := hex
      rcases List.mem_cons.1 he' with rfl | hmem
      · simp [iValue.isBound, hk, hb] at hbe'
      · exact ⟨e', hmem, hbe'⟩
    | true =>
      have hbe : e.isBound = true := by simp [iValue.isBound, hk, hb]
      have ht := hT e (List.mem_cons_self _ _) hbe
      simp only [foldElts, scanBody_bound _ e k _ h1 hk hb ht]
      have hne : (none : Option GoType) ≠ some T := by simp
      rw [if_pos hne, if_neg (by simp)]
      exact scan_from_bound T es _ hall' hT'

/-- The second pass succeeds when every constant is convertible. -/
theorem convertible_pass_ok (env : Env) (T : GoType) (L : List iValue)
    (h : ∀ c, iValue.constVal c ∈ L → constIsConvertible env c.v T = true) :
    foldElts (convertibleBody env T) () L = .ok (some ()) := by
  induction L with
  | nil => rfl
  | cons e es ih =>
    have ih' := ih (fun c hc => h c (List.mem_cons_of_mem _ hc))
    cases e with
    | constVal c =>
      have hc := h c (List.mem_cons_self _ _)
      simp only [foldElts, convertibleBody, hc, Bool.not_true, Bool.false_eq_true, if_false]
      exact ih'
    | goValue t => simpa only [foldElts, convertibleBody] using ih'
    | nonValue => simpa only [foldElts, convertibleBody] using ih'
    | funcResults t => simpa only [foldElts, convertibleBody] using ih'
    | qlFunc t => simpa only [foldElts, convertibleBody] using ih'
    | goFunc t => simpa only [foldElts, convertibleBody] using ih'

/-- The second pass returns nil when some constant is not convertible. -/
theorem convertible_pass_fails (env : Env) (T : GoType) (L : List iValue)
    (h : ∃ c, iValue.constVal c ∈ L ∧ constIsConvertible env c.v T = false) :
    foldElts (convertibleBody env T) () L = .ok none := by
  induction L with
  | nil => obtain ⟨c, hc, _⟩ := h; cases hc
  | cons e es ih =>
    obtain ⟨c, hc, hnc⟩ := h
    by_cases hhead : e = iValue.constVal c
    · subst hhead
      simp [foldElts, convertibleBody, hnc]
    · have hmem : iValue.constVal c ∈ es := by
        rcases List.mem_cons.1 hc with h' | h'
        · exact absurd h'.symm hhead
        · exact h'
      have ih' := ih ⟨c, hmem, hnc⟩
      cases e with
      | constVal c' =>
        simp only [foldElts, convertibleBody]
        cases hcv : constIsConvertible env c'.v T with
        | false => simp
        | true => simpa using ih'
      | goValue t => simpa only [foldElts, convertibleBody] using ih'
      | nonValue => simpa only [foldElts, convertibleBody] using ih'
      | funcResults t => simpa only [foldElts, convertibleBody] using ih'
      | qlFunc t => simpa only [foldElts, convertibleBody] using ih'
      | goFunc t => simpa only [foldElts, convertibleBody] using ih'

/-- An unbound constant is a `constVal` of an unbound kind. -/
theorem unboundConst_cases (e : iValue) (h : e.isUnboundConst = true) :
    ∃ c, e = iValue.constVal c ∧ isConstBound c.kind = false := by
  cases e with
  | constVal c => exact ⟨c, rfl, by simpa [iValue.isUnboundConst] using h⟩
  | goValue t => simp [iValue.isUnboundConst] at h
  | nonValue => simp [iValue.isUnboundConst] at h
  | funcResults t => simp [iValue.isUnboundConst] at h
  | qlFunc t => simp [iValue.isUnboundConst] at h
  | goFunc t => simp [iValue.isUnboundConst] at h

/-- The first pass over unbound constants keeps `tBound` and ends with the highest
kind present. -/
theorem scan_unbound (L : List iValue) :
    ∀ tb ku, (∀ e ∈ L, e.isUnboundConst = true) →
      ∃ ku', foldElts scanBody (tb, ku) L = .ok (some (tb, ku')) ∧ ku ≤ ku' ∧
        (∀ c, iValue.constVal c ∈ L → c.kind ≤ ku') ∧
        (ku' = ku ∨ ∃ c, iValue.constVal c ∈ L ∧ c.kind = ku') := by
  induction L with
  | nil =>
    intro tb ku _
    exact ⟨ku, rfl, Nat.le_refl _, fun c hc => (by cases hc), Or.inl rfl⟩
  | cons e es ih =>
    intro tb ku hall
    obtain ⟨c, rfl, hu⟩ := unboundConst_cases e (hall e (List.mem_cons_self _ _))
    have hall' : ∀ e' ∈ es, e'.isUnboundConst = true :=
      fun e' he' => hall e' (List.mem_cons_of_mem _ he')
    have hstep := scanBody_unbound (tb, ku) (iValue.constVal c) c.kind rfl rfl hu
    simp only [foldElts, hstep]
    obtain ⟨ku', hf, hle, hmax, hatt⟩ := ih tb (if ku < c.kind then c.kind else ku) hall'
    refine ⟨ku', hf, ?_, ?_, ?_⟩
    · by_cases hlt : ku < c.kind
      · rw [if_pos hlt] at hle; exact Nat.le_trans (Nat.le_of_lt hlt) hle
      · rw [if_neg hlt] at hle; exact hle
    · intro c' hc'
      rcases List.mem_cons.1 hc' with h' | h'
      · injection h' with h'
        subst h'
        by_cases hlt : ku < c'.kind
        · rw [if_pos hlt] at hle; exact hle
        · rw [if_neg hlt] at hle; exact Nat.le_trans (Nat.le_of_not_lt hlt) hle
      · exact hmax c' h'
    · rcases hatt with h' | ⟨c', hc', hk'⟩
      · by_cases hlt : ku < c.kind
        · rw [if_pos hlt] at h'
          exact Or.inr ⟨c, List.mem_cons_self _ _, h'.symm⟩
        · rw [if_neg hlt] at h'
          exact Or.inl h'
      · exact Or.inr ⟨c', List.mem_cons_of_mem _ hc', hk'⟩

/-- The third pass on one element that is a constant of the kind looked for. -/
theorem defaultBody_hit (ku kb k : Kind) (c : constVal) (hk : c.kind = ku)
    (hbk : c.boundKind = .ok k) :
    defaultBody ku kb (iValue.constVal c) =
      if k ≠ kb then (if kb ≠ 0 then .ok none else .ok (some k)) else .ok (some kb) := by
  simp [defaultBody, hk, hbk]

/-- The third pass skips an element that is not a constant of the kind looked for. -/
theorem defaultBody_miss (ku kb : Kind) (e : iValue)
    (h : ∀ c, e = iValue.constVal c → c.kind ≠ ku) :
    defaultBody ku kb e = .ok (some kb) := by
  cases e with
  | constVal c => simp [defaultBody, h c rfl]
  | goValue t => rfl
  | nonValue => rfl
  | funcResults t => rfl
  | qlFunc t => rfl
  | goFunc t => rfl

/-- The third pass from the kind `k` over constants that all default-bind to `k`. -/
theorem default_from_kind (ku k : Kind) (L : List iValue)
    (h : ∀ c, iValue.constVal c ∈ L → c.kind = ku → c.boundKind = .ok k) :
    foldElts (defaultBody ku) k L = .ok (some k) := by
  induction L with
  | nil => rfl
  | cons e es ih =>
    have ih' := ih (fun c hc => h c (List.mem_cons_of_mem _ hc))
    by_cases hhit : ∃ c, e = iValue.constVal c ∧ c.kind = ku
    · obtain ⟨c, rfl, hk⟩ := hhit
      have hbk := h c (List.mem_cons_self _ _) hk
      simp only [foldElts, defaultBody_hit ku k k c hk hbk, ne_eq, not_true_eq_false, if_false]
      exact ih'
    · have hmiss : ∀ c, e = iValue.constVal c → c.kind ≠ ku :=
        fun c hc hk => hhit ⟨c, hc, hk⟩
      simp only [foldElts, defaultBody_miss ku k e hmiss]
      exact ih'

/-- The third pass finds the kind `k` when the constants looked at all default-bind
to `k` and there is one. -/
theorem default_to_kind (ku k : Kind) (hk0 : k ≠ 0) (L : List iValue)
    (h : ∀ c, iValue.constVal c ∈ L → c.kind = ku → c.boundKind = .ok k)
    (hex : ∃ c, iValue.constVal c ∈ L ∧ c.kind = ku) :
    foldElts (defaultBody ku) 0 L = .ok (some k) := by
  induction L with
  | nil => obtain ⟨c, hc, _⟩ := hex; cases hc
  | cons e es ih =>
    have h' : ∀ c, iValue.constVal c ∈ es → c.kind = ku → c.boundKind = .ok k :=
      fun c hc => h c (List.mem_cons_of_mem _ hc)
    by_cases hhit : ∃ c, e = iValue.constVal c ∧ c.kind = ku
    · obtain ⟨c, rfl, hk⟩ := hhit
      have hbk := h c (List.mem_cons_self _ _) hk
      simp only [foldElts, defaultBody_hit ku 0 k c hk hbk]
      rw [if_pos hk0, if_neg (by simp)]
      exact default_from_kind ku k es h'
    · have hmiss : ∀ c, e = iValue.constVal c → c.kind ≠ ku :=
        fun c hc hk => hhit ⟨c, hc, hk⟩
      simp only [foldElts, defaultBody_miss ku 0 e hmiss]
      apply ih h'
      obtain ⟨c, hc, hk⟩ := hex
      rcases List.mem_cons.1 hc with hc' | hc'
      · exact absurd ⟨c, hc'.symm, hk⟩ hhit
      · exact ⟨c, hc', hk⟩

/-- The third pass does not panic when `boundKind` is defined on the constants it
looks at. -/
theorem default_no_panic (ku : Kind) (L : List iValue)
    (h : ∀ c, iValue.constVal c ∈ L → c.kind = ku → ∃ k, c.boundKind = .ok k) :
    ∀ kb, ∃ r, foldElts (defaultBody ku) kb L = .ok r := by
  induction L with
  | nil => intro kb; exact ⟨_, rfl⟩
  | cons e es ih =>
    intro kb
    have ih' := ih (fun c hc => h c (List.mem_cons_of_mem _ hc))
    by_cases hhit : ∃ c, e = iValue.constVal c ∧ c.kind = ku
    · obtain ⟨c, rfl, hk⟩ := hhit
      obtain ⟨k, hbk⟩ := h c (List.mem_cons_self _ _) hk
      simp only [foldElts, defaultBody_hit ku kb k c hk hbk]
      by_cases h1 : k ≠ kb
      · by_cases h2 : kb ≠ 0
        · rw [if_pos h1, if_pos h2]; exact ⟨_, rfl⟩
        · rw [if_pos h1, if_neg h2]; exact ih' _
      · rw [if_neg h1]; exact ih' _
    · have hmiss : ∀ c, e = iValue.constVal c → c.kind ≠ ku :=
        fun c hc hk => hhit ⟨c, hc, hk⟩
      simp only [foldElts, defaultBody_miss ku kb e hmiss]
      exact ih' _

/-- A third pass that ran to its end saw only constants default-binding to its
final kind. -/
theorem default_inv (ku : Kind) (L : List iValue)
    (h : ∀ c, iValue.constVal c ∈ L → c.kind = ku → ∃ k, c.boundKind = .ok k ∧ k ≠ 0) :
    ∀ kb kb', foldElts (defaultBody ku) kb L = .ok (some kb') →
      (kb ≠ 0 → kb' = kb) ∧
        (∀ c, iValue.constVal c ∈ L → c.kind = ku → c.boundKind = .ok kb') := by
  induction L with
  | nil =>
    intro kb kb' hf
    simp only [foldElts] at hf
    injection hf with hf; injection hf with hf
    exact ⟨fun _ => hf.symm, fun c hc => (by cases hc)⟩
  | cons e es ih =>
    intro kb kb' hf
    have ih' := ih (fun c hc => h c (List.mem_cons_of_mem _ hc))
    by_cases hhit : ∃ c, e = iValue.constVal c ∧ c.kind = ku
    · obtain ⟨c, rfl, hk⟩ := hhit
      obtain ⟨k, hbk, hk0⟩ := h c (List.mem_cons_self _ _) hk
      simp only [foldElts, defaultBody_hit ku kb k c hk hbk] at hf
      by_cases h1 : k ≠ kb
      · by_cases h2 : kb ≠ 0
        · rw [if_pos h1, if_pos h2] at hf; cases hf
        · rw [if_pos h1, if_neg h2] at hf
          obtain ⟨i1, i2⟩ := ih' k kb' hf
          have hkb' : kb' = k := i1 hk0
          refine ⟨fun hc => absurd hc h2, ?_⟩
          intro c' hc' hk'
          rcases List.mem_cons.1 hc' with e' | e'
          · injection e' with e'
            subst e'
            rw [hkb']; exact hbk
          · exact i2 c' e' hk'
      · rw [if_neg h1] at hf
        have hkk : k = kb := by
          by_contra hc; exact h1 hc
        obtain ⟨i1, i2⟩ := ih' kb kb' hf
        refine ⟨i1, ?_⟩
        intro c' hc' hk'
        rcases List.mem_cons.1 hc' with e' | e'
        · injection e' with e'
          subst e'
          have : kb' = kb := i1 (by rw [← hkk]; exact hk0)
          rw [this, ← hkk]; exact hbk
        · exact i2 c' e' hk'
    · have hmiss : ∀ c, e = iValue.constVal c → c.kind ≠ ku :=
        fun c hc hk => hhit ⟨c, hc, hk⟩
      simp only [foldElts, defaultBody_miss ku kb e hmiss] at hf
      obtain ⟨i1, i2⟩ := ih' kb kb' hf
      refine ⟨i1, ?_⟩
      intro c' hc' hk'
      rcases List.mem_cons.1 hc' with e' | e'
      · exact absurd hk' (hmiss c' e'.symm)
      · exact i2 c' e' hk'

/-- The default kind of an unbound marker is defined and is not `Invalid`. -/
theorem boundKind_unbound_ok (c : constVal) (hu : isConstBound c.kind = false) :
    (c.kind = astutil.ConstUnboundInt ∨ c.kind = astutil.ConstUnboundFloat ∨
        c.kind = astutil.ConstUnboundComplex) →
      ∃ k, c.boundKind = .ok k ∧ k ≠ 0 := by
  intro hm
  unfold constVal.boundKind
  simp only [hu, Bool.false_eq_true, if_false]
  by_cases h1 : c.kind = astutil.ConstUnboundInt
  · rw [if_pos h1]
    by_cases h2 : c.v.typ = tyInt64
    · rw [if_pos h2]; exact ⟨_, rfl, by decide⟩
    · rw [if_neg h2]; exact ⟨_, rfl, by decide⟩
  · rw [if_neg h1]
    by_cases h2 : c.kind = astutil.ConstUnboundFloat
    · rw [if_pos h2]; exact ⟨_, rfl, by decide⟩
    · rw [if_neg h2]
      by_cases h3 : c.kind = astutil.ConstUnboundComplex
      · rw [if_pos h3]; exact ⟨_, rfl, by decide⟩
      · rcases hm with h | h | h
        · exact absurd h h1
        · exact absurd h h2
        · exact absurd h h3

/-- An unbound constant with a default kind has one of the three markers. -/
theorem boundKind_unbound_marker (c : constVal) (k : Kind) (hu : isConstBound c.kind = false)
    (hk : c.boundKind = .ok k) :
    c.kind = astutil.ConstUnboundInt ∨ c.kind = astutil.ConstUnboundFloat ∨
      c.kind = astutil.ConstUnboundComplex := by
  unfold constVal.boundKind at hk
  simp only [hu, Bool.false_eq_true, if_false] at hk
  by_cases h1 : c.kind = astutil.ConstUnboundInt
  · exact Or.inl h1
  · by_cases h2 : c.kind = astutil.ConstUnboundFloat
    · exact Or.inr (Or.inl h2)
    · by_cases h3 : c.kind = astutil.ConstUnboundComplex
      · exact Or.inr (Or.inr h3)
      · rw [if_neg h1, if_neg h2, if_neg h3] at hk
        cases hk

/-- Two constants of the highest unbound kind with different default kinds make
the passes return nil. -/
theorem unifyElts_unbound_conflict (env : Env) (L : List iValue)
    (hall : ∀ e ∈ L, e.isUnboundConst = true)
    (c₁ c₂ : constVal) (k₁ k₂ : Kind)
    (h₁ : iValue.constVal c₁ ∈ L) (h₂ : iValue.constVal c₂ ∈ L)
    (htop : ∀ c, iValue.constVal c ∈ L → c.kind ≤ c₁.kind) (hsame : c₂.kind = c₁.kind)
    (hk₁ : c₁.boundKind = .ok k₁) (hk₂ : c₂.boundKind = .ok k₂) (hne : k₁ ≠ k₂) :
    unifyElts env L = .ok none := by
  obtain ⟨ku, hf, _, hmax, hatt⟩ := scan_unbound L none 0 hall
  have hu₁ : isConstBound c₁.kind = false := by
    obtain ⟨c, hc, hu⟩ := unboundConst_cases _ (hall _ h₁)
    injection hc with hc
    rw [hc]; exact hu
  have hku : ku = c₁.kind := by
    have hle := hmax c₁ h₁
    rcases hatt with h0 | ⟨c, hc, hck⟩
    · rw [h0] at hle
      have : c₁.kind = 0 := Nat.le_zero.1 hle
      rw [this] at hu₁
      exact absurd hu₁ (by decide)
    · have := htop c hc
      rw [hck] at this
      exact Nat.le_antisymm this hle
  have hmark := boundKind_unbound_marker c₁ k₁ hu₁ hk₁
  have hbk : ∀ c, iValue.constVal c ∈ L → c.kind = ku → ∃ k, c.boundKind = .ok k ∧ k ≠ 0 := by
    intro c hc hck
    obtain ⟨c', hc', hu⟩ := unboundConst_cases _ (hall _ hc)
    injection hc' with hc'
    apply boundKind_unbound_ok c (by rw [hc']; exact hu)
    rw [hck, hku]; exact hmark
  obtain ⟨r, hr⟩ := default_no_panic ku L
    (fun c hc hck => (hbk c hc hck).imp fun _ h => h.1) 0
  cases r with
  | none => simp [unifyElts, hf, hr]
  | some kb' =>
    obtain ⟨_, hinv⟩ := default_inv ku L hbk 0 kb' hr
    have e1 := hinv c₁ h₁ hku.symm
    have e2 := hinv c₂ h₂ (by rw [hsame, hku])
    rw [hk₁] at e1
    rw [hk₂] at e2
    injection e1 with e1
    injection e2 with e2
    exact absurd (e1.trans e2.symm) hne

/-- Unbound constants of which the highest kind is unbound-float unify to
`float64`. -/
theorem unifyElts_unbound_float (env : Env) (L : List iValue)
    (hall : ∀ e ∈ L, e.isUnboundConst = true)
    (hex : ∃ c, iValue.constVal c ∈ L ∧ c.kind = astutil.ConstUnboundFloat)
    (htop : ∀ c, iValue.constVal c ∈ L → c.kind ≤ astutil.ConstUnboundFloat) :
    unifyElts env L = .ok (some exec.TyFloat64) := by
  obtain ⟨ku, hf, _, hmax, hatt⟩ := scan_unbound L none 0 hall
  obtain ⟨c₀, hc₀, hk₀⟩ := hex
  have hku : ku = astutil.ConstUnboundFloat := by
    have hle := hmax c₀ hc₀
    rw [hk₀] at hle
    rcases hatt with h0 | ⟨c, hc, hck⟩
    · rw [h0] at hle
      exact absurd hle (by decide)
    · have := htop c hc
      rw [hck] at this
      exact Nat.le_antisymm this hle
  have hbk : ∀ c, iValue.constVal c ∈ L → c.kind = ku →
      c.boundKind = .ok reflect.Float64 := by
    intro c _ hck
    rw [hku] at hck
    unfold constVal.boundKind
    rw [hck]
    rfl
  have hd := default_to_kind ku reflect.Float64 (by decide) L hbk ⟨c₀, hc₀, by rw [hk₀, hku]⟩
  simp only [unifyElts, hf, hd]
  rfl

/-- The elements of `visitedFrom` are those at the positions `i + k * step`
below `max`. -/
theorem mem_visitedFrom (elts : List iValue) (max step : Int) (hstep : 0 < step)
    (hmax : max ≤ elts.length) :
    ∀ (fuel : Nat) (i : Int), 0 ≤ i → max - i ≤ fuel → ∀ e,
      e ∈ visitedFrom elts max step (fuel + 1) i ↔
        ∃ k : Nat, i + k * step < max ∧ elts.get? (i + k * step).toNat = some e := by
  intro fuel
  induction fuel with
  | zero =>
    intro i _ hle e
    have hnlt : ¬ i < max := by omega
    simp only [visitedFrom, if_neg hnlt, List.not_mem_nil, false_iff]
    rintro ⟨k, hk, _⟩
    have : (0 : Int) ≤ k * step := Int.mul_nonneg (Int.ofNat_nonneg k) (Int.le_of_lt hstep)
    omega
  | succ n ih =>
    intro i h0 hle e
    by_cases hlt : i < max
    · obtain ⟨e0, he0, hget⟩ := goIndex_ok elts i h0 (by omega)
      rw [visitedFrom, if_pos hlt, he0]
      simp only [List.mem_cons]
      rw [ih (i + step) (by omega) (by omega) e]
      constructor
      · rintro (rfl | ⟨k, hk, hg⟩)
        · exact ⟨0, by simpa using hlt, by simpa using hget⟩
        · refine ⟨k + 1, ?_, ?_⟩
          · have : i + ((k + 1 : Nat) : Int) * step = i + step + k * step := by
              push_cast; ring
            rw [this]; exact hk
          · have : i + ((k + 1 : Nat) : Int) * step = i + step + k * step := by
              push_cast; ring
            rw [this]; exact hg
      · rintro ⟨k, hk, hg⟩
        cases k with
        | zero =>
          left
          simp only [Nat.cast_zero, zero_mul, add_zero] at hg
          rw [hget] at hg
          injection hg with hg
          exact hg.symm
        | succ k =>
          right
          have : i + ((k + 1 : Nat) : Int) * step = i + step + k * step := by
            push_cast; ring
          rw [this] at hk hg
          exact ⟨k, hk, hg⟩
    · rw [visitedFrom, if_neg hlt]
      simp only [List.not_mem_nil, false_iff]
      rintro ⟨k, hk, _⟩
      have : (0 : Int) ≤ k * step := Int.mul_nonneg (Int.ofNat_nonneg k) (Int.le_of_lt hstep)
      omega

/-- Under a stride that stays inside the slice, the visited elements are exactly
those at the positions `base + k * step` below `max`. -/
theorem mem_visited (env : Env) (elts : List iValue) (base max step : Int)
    (h : StrideOk env elts base max step) (e : iValue) :
    e ∈ visited elts base max step ↔
      ∃ k : Nat, base + k * step < max ∧ elts.get? (base + k * step).toNat = some e := by
  obtain ⟨hb, hs, hm, _⟩ := h
  exact mem_visitedFrom elts max step hs hm elts.length base hb (by omega) e

/-- A successful `bound` on a constant with a pending slot took the conversion
path. -/
theorem bound_pending_ok (env : Env) (p : constVal) (t : GoType) (b : Builder)
    (hr : p.reserve ≠ exec.InvalidReserved) (hok : (constVal.bound env p t b).err = none) :
    ∃ v, boundConst env p.v t = .ok v ∧
      constVal.bound env p t b =
        ⟨none, ⟨v, t.kind, p.reserve⟩, b ++ [BuilderCall.ReservedAsPush p.reserve v]⟩ := by
  unfold constVal.bound at hok ⊢
  simp only [hr, if_false] at hok ⊢
  cases hv : boundConst env p.v t with
  | error e => rw [hv] at hok; cases hok
  | ok v => exact ⟨v, rfl, rfl⟩

/-- The last element of a list with a default, when one more element is put in
front. -/
theorem getLast?_getD_cons {α : Type} (a d : α) (l : List α) :
    ((a :: l).getLast?).getD d = (l.getLast?).getD a := by
  cases l with
  | nil => rfl
  | cons b l =>
    rw [List.getLast?_cons_cons]
    cases h : (b :: l).getLast? with
    | none => simp at h
    | some x => rfl

/-- Successive successful `bound` calls on a constant with a pending slot: call
number `i` converts the raw value left by the call before it to its target type,
and the outcome is the last converted value, the kind of the last target type,
the slot still pending, and one `ReservedAsPush` of each converted value, in
order. -/
theorem boundSeq_trace (env : Env) (ts : List GoType) :
    ∀ (p : constVal) (b : Builder), p.reserve ≠ exec.InvalidReserved →
      (boundSeq env p b ts).err = none →
      ∃ vs : List Value, vs.length = ts.length ∧
        (∀ x ∈ (p.v :: vs).zip (ts.zip vs), boundConst env x.1 x.2.1 = .ok x.2.2) ∧
        boundSeq env p b ts =
          ⟨none, ⟨(vs.getLast?).getD p.v, ((ts.getLast?).map GoType.kind).getD p.kind,
              p.reserve⟩,
            b ++ vs.map (BuilderCall.ReservedAsPush p.reserve)⟩ := by
  induction ts with
  | nil =>
    intro p b _ _
    exact ⟨[], rfl, fun x hx => (by simp at hx), by simp [boundSeq]⟩
  | cons t ts ih =>
    intro p b hr hok
    cases he : (constVal.bound env p t b).err with
    | some e =>
      simp only [boundSeq, he] at hok
      cases hok
    | none =>
      obtain ⟨v, hv, hb⟩ := bound_pending_ok env p t b hr he
      simp only [boundSeq, he] at hok ⊢
      rw [hb] at hok ⊢
      simp only at hok ⊢
      obtain ⟨vs, hlen, hchain, heq⟩ := ih ⟨v, t.kind, p.reserve⟩ _ hr hok
      refine ⟨v :: vs, by simp [hlen], ?_, ?_⟩
      · intro x hx
        simp only [List.zip_cons_cons, List.mem_cons] at hx
        rcases hx with rfl | hx
        · exact hv
        · exact hchain x hx
      · rw [heq, getLast?_getD_cons]
        have hk : (((t :: ts).getLast?).map GoType.kind).getD p.kind =
            ((ts.getLast?).map GoType.kind).getD t.kind := by
          cases ts with
          | nil => rfl
          | cons t2 ts2 =>
            rw [List.getLast?_cons_cons]
            cases h : (t2 :: ts2).getLast? with
            | none => simp at h
            | some x => rfl
        rw [hk]
        simp

/-- On a constant whose slot is `InvalidReserved`, `bound` with a target of the
same kind, or with the empty-interface target, returns and changes nothing. -/
theorem bound_invalid_noop (env : Env) (p : constVal) (t : GoType) (b : Builder)
    (hr : p.reserve = exec.InvalidReserved)
    (ht : t.kind = p.kind ∨ t = exec.TyEmptyInterface) :
    constVal.bound env p t b = ⟨none, p, b⟩ := by
  unfold constVal.bound
  rw [if_pos hr]
  by_cases hk : p.kind ≠ t.kind
  · rw [if_pos hk]
    rcases ht with h | h
    · exact absurd h.symm hk
    · rw [if_pos h]
  · rw [if_neg hk]

/-- A call that changes nothing can be repeated any number of times. -/
theorem boundSeq_replicate_noop (env : Env) (p : constVal) (t : GoType) (b : Builder)
    (h : constVal.bound env p t b = ⟨none, p, b⟩) :
    ∀ n : Nat, boundSeq env p b (List.replicate n t) = ⟨none, p, b⟩ := by
  intro n
  induction n with
  | zero => rfl
  | succ n ih =>
    simp only [List.replicate_succ, boundSeq, h]
    exact ih

/-- A function type with one output gives the `goValue` of that output. -/
theorem newFuncResults_single (tfn : FuncType) (t : GoType) (h : tfn.outs = [t]) :
    newFuncResults tfn = .ok (.goValue t) := by
  unfold newFuncResults
  simp [h]

/-- A function type whose number of outputs is not one gives a wrapper. -/
theorem newFuncResults_wrapped (tfn : FuncType) (h : tfn.outs.length ≠ 1) :
    newFuncResults tfn = .ok (.funcResults tfn) := by
  unfold newFuncResults
  rw [if_neg h]

/-- A pass over two lists in a row is the pass over the first, then, unless it
stopped, the pass over the second. -/
theorem foldElts_append {σ : Type} (body : σ → iValue → Except Err (Option σ))
    (xs ys : List iValue) :
    ∀ s, foldElts body s (xs ++ ys) =
      match foldElts body s xs with
      | .error err => .error err
      | .ok none => .ok none
      | .ok (some s') => foldElts body s' ys := by
  induction xs with
  | nil => intro s; rfl
  | cons x xs ih =>
    intro s
    simp only [List.cons_append, foldElts]
    cases hb : body s x with
    | error err => rfl
    | ok r =>
      cases r with
      | none => rfl
      | some s1 => exact ih s1

/-- The first pass does not return nil on a list whose bound elements all report
the same type. -/
theorem scan_same_type_not_nil (t : Option GoType) (L : List iValue) :
    ∀ s : Option GoType × Kind, (s.1 = none ∨ s.1 = t) →
      (∀ e ∈ L, e.isBound = true → e.Type = .ok t) →
      foldElts scanBody s L ≠ .ok none := by
  induction L with
  | nil => intro s _ _ h; cases h
  | cons e es ih =>
    intro s hs hT hnil
    have hT' : ∀ e' ∈ es, e'.isBound = true → e'.Type = .ok t :=
      fun e' he' => hT e' (List.mem_cons_of_mem _ he')
    simp only [foldElts] at hnil
    cases hb : scanBody s e with
    | error err => rw [hb] at hnil; cases hnil
    | ok r =>
      rw [hb] at hnil
      unfold scanBody at hb
      simp only at hb
      split at hb
      · cases hb
      · split at hb
        · cases hb
        · next kind hk =>
          split at hb
          · next hub =>
            have hs1 : ∃ k', r = some (s.1, k') := by
              split at hb <;> (injection hb with hb; exact ⟨_, hb.symm⟩)
            obtain ⟨k', rfl⟩ := hs1
            exact ih (s.1, k') hs hT' hnil
          · next hbnd =>
            have hbe : e.isBound = true := by
              simp only [iValue.isBound, hk]
              simpa using hbnd
            have ht := hT e (List.mem_cons_self _ _) hbe
            rw [ht] at hb
            simp only at hb
            split at hb
            · next hne =>
              split at hb
              · next hnn =>
                rcases hs with h | h
                · exact hnn h
                · exact hne h
              · injection hb with hb
                subst hb
                exact ih (t, s.2) (Or.inr rfl) hT' hnil
            · injection hb with hb
              subst hb
              exact ih (s.1, s.2) hs hT' hnil

/-- The first pass panics on an element whose arity is not one. -/
theorem scanBody_arity (s : Option GoType × Kind) (e : iValue) (h : e.NumValues ≠ 1) :
    scanBody s e = .error Err.multipleValues := by
  unfold scanBody
  simp [h]

/-- An element of arity other than one, after elements whose bound members all
report the same type, makes the passes panic. -/
theorem unifyElts_arity_fatal (env : Env) (pre post : List iValue) (e : iValue)
    (t : Option GoType) (ha : e.NumValues ≠ 1)
    (hpre : ∀ e' ∈ pre, e'.isBound = true → e'.Type = .ok t) :
    ∃ err, unifyElts env (pre ++ e :: post) = .error err := by
  unfold unifyElts
  rw [foldElts_append]
  cases hp : foldElts scanBody (none, 0) pre with
  | error err => exact ⟨err, rfl⟩
  | ok r =>
    cases r with
    | none => exact absurd hp (scan_same_type_not_nil t pre (none, 0) (Or.inl rfl) hpre)
    | some s' =>
      simp only [foldElts, scanBody_arity s' e ha]
      exact ⟨_, rfl⟩

/-- Unbound constants that all default-bind to the kind `K` unify to the type of
`K`. -/
theorem unifyElts_unbound_same (env : Env) (L : List iValue) (K : Kind)
    (hne : L ≠ []) (hall : ∀ e ∈ L, e.isUnboundConst = true)
    (hK : ∀ c, iValue.constVal c ∈ L → c.boundKind = .ok K) :
    unifyElts env L = .ok (exec.TypeFromKind K) := by
  obtain ⟨ku, hf, _, hmax, hatt⟩ := scan_unbound L none 0 hall
  obtain ⟨e₀, he₀⟩ := List.exists_mem_of_ne_nil L hne
  obtain ⟨c₀, rfl, hu₀⟩ := unboundConst_cases e₀ (hall e₀ he₀)
  have hex : ∃ c, iValue.constVal c ∈ L ∧ c.kind = ku := by
    rcases hatt with h0 | h
    · have hle := hmax c₀ he₀
      rw [h0] at hle
      have : c₀.kind = 0 := Nat.le_zero.1 hle
      rw [this] at hu₀
      exact absurd hu₀ (by decide)
    · exact h
  have hK0 : K ≠ 0 := by
    have hm := boundKind_unbound_marker c₀ K hu₀ (hK c₀ he₀)
    obtain ⟨k, hk, hk0⟩ := boundKind_unbound_ok c₀ hu₀ hm
    rw [hK c₀ he₀] at hk
    injection hk with hk
    rw [hk]; exact hk0
  have hd := default_to_kind ku K hK0 L (fun c hc _ => hK c hc) hex
  simp only [unifyElts, hf, hd]

/-- The converter `convertOp` picks tells the kind class of the source. -/
theorem convertOp_src (env : Env) (dst src : GoType) (op : ConvOp)
    (h : convertOp env dst src = some op) :
    ((op = .cvtInt ∨ op = .cvtIntFloat ∨ op = .cvtIntString) → isIntKind src.kind = true) ∧
    ((op = .cvtUint ∨ op = .cvtUintFloat ∨ op = .cvtUintString) →
        isUintKind src.kind = true) ∧
    ((op = .cvtFloatInt ∨ op = .cvtFloatUint ∨ op = .cvtFloat) →
        isFloatKind src.kind = true) ∧
    (op = .cvtComplex → isComplexKind src.kind = true) := by
  unfold convertOp at h
  simp only at h
  split_ifs at h <;> (simp only [Option.some.injEq] at h; subst h; simp_all)

/-- The kind classes are pairwise disjoint, and none contains `String` or
`Bool`. -/
theorem kind_excl (k : Nat) :
    (isIntKind k = true → isUintKind k = false ∧ isFloatKind k = false ∧
        isComplexKind k = false ∧ k ≠ reflect.String ∧ k ≠ reflect.Bool) ∧
      (isUintKind k = true → isFloatKind k = false ∧ isComplexKind k = false ∧
        k ≠ reflect.String ∧ k ≠ reflect.Bool) ∧
      (isFloatKind k = true → isComplexKind k = false ∧ k ≠ reflect.String ∧
        k ≠ reflect.Bool) ∧
      (isComplexKind k = true → k ≠ reflect.String ∧ k ≠ reflect.Bool) := by
  have e1 : reflect.Int = (2 : Nat) := rfl
  have e2 : reflect.Int64 = (6 : Nat) := rfl
  have e3 : reflect.Uint = (7 : Nat) := rfl
  have e4 : reflect.Uintptr = (12 : Nat) := rfl
  have e5 : reflect.Float32 = (13 : Nat) := rfl
  have e6 : reflect.Float64 = (14 : Nat) := rfl
  have e7 : reflect.Complex64 = (15 : Nat) := rfl
  have e8 : reflect.Complex128 = (16 : Nat) := rfl
  have e9 : reflect.String = (24 : Nat) := rfl
  have e10 : reflect.Bool = (1 : Nat) := rfl
  simp only [isIntKind, isUintKind, isFloatKind, isComplexKind, e1, e2, e3, e4, e5, e6, e7, e8,
    e9, e10, Bool.and_eq_true, Bool.or_eq_true,
    decide_eq_true_eq, Bool.or_eq_false_iff, Bool.and_eq_false_imp, decide_eq_false_iff_not,
    ne_eq]
  clear e1 e2 e3 e4 e5 e6 e7 e8 e9 e10
  delta Kind
  omega

/-- A well-formed value of a signed kind carries a signed payload. -/
theorem wf_int (v : Value) (hw : v.WellFormed = true) (hk : isIntKind v.typ.kind = true) :
    ∃ i, v.raw = .int i := by
  obtain ⟨h1, h2, h3, h4, h5⟩ := (kind_excl v.typ.kind).1 hk
  unfold Value.WellFormed at hw
  cases hr : v.raw <;> rw [hr] at hw <;> simp_all

/-- A well-formed value of an unsigned kind carries an unsigned payload. -/
theorem wf_uint (v : Value) (hw : v.WellFormed = true) (hk : isUintKind v.typ.kind = true) :
    ∃ n, v.raw = .uint n := by
  have hi : isIntKind v.typ.kind = false := by
    cases h : isIntKind v.typ.kind
    · rfl
    · rw [((kind_excl v.typ.kind).1 h).1] at hk; cases hk
  obtain ⟨h2, h3, h4, h5⟩ := (kind_excl v.typ.kind).2.1 hk
  unfold Value.WellFormed at hw
  cases hr : v.raw <;> rw [hr] at hw <;> simp_all

/-- A well-formed value of a float kind carries a float payload. -/
theorem wf_float (v : Value) (hw : v.WellFormed = true) (hk : isFloatKind v.typ.kind = true) :
    ∃ f, v.raw = .float f := by
  have hi : isIntKind v.typ.kind = false := by
    cases h : isIntKind v.typ.kind
    · rfl
    · rw [((kind_excl v.typ.kind).1 h).2.1] at hk; cases hk
  have hu : isUintKind v.typ.kind = false := by
    cases h : isUintKind v.typ.kind
    · rfl
    · rw [((kind_excl v.typ.kind).2.1 h).1] at hk; cases hk
  obtain ⟨h3, h4, h5⟩ := (kind_excl v.typ.kind).2.2.1 hk
  unfold Value.WellFormed at hw
  cases hr : v.raw <;> rw [hr] at hw <;> simp_all

/-- A well-formed value of a complex kind carries a complex payload. -/
theorem wf_complex (v : Value) (hw : v.WellFormed = true)
    (hk : isComplexKind v.typ.kind = true) : ∃ re im, v.raw = .complex re im := by
  have hi : isIntKind v.typ.kind = false := by
    cases h : isIntKind v.typ.kind
    · rfl
    · rw [((kind_excl v.typ.kind).1 h).2.2.1] at hk; cases hk
  have hu : isUintKind v.typ.kind = false := by
    cases h : isUintKind v.typ.kind
    · rfl
    · rw [((kind_excl v.typ.kind).2.1 h).2.1] at hk; cases hk
  have hf : isFloatKind v.typ.kind = false := by
    cases h : isFloatKind v.typ.kind
    · rfl
    · rw [((kind_excl v.typ.kind).2.2.1 h).1] at hk; cases hk
  obtain ⟨h4, h5⟩ := (kind_excl v.typ.kind).2.2.2 hk
  unfold Value.WellFormed at hw
  cases hr : v.raw <;> rw [hr] at hw <;> simp_all

/-- On a well-formed value `Convert` returns whenever there is a converter, and
the result has the target type. -/
theorem Convert_ok (env : Env) (v : Value) (t : GoType) (op : ConvOp)
    (hw : v.WellFormed = true) (h : convertOp env t v.typ = some op)
    (ho : op = ConvOp.cvtOther → ∃ r, env.convOther v t = some r) :
    ∃ r, Value.Convert env v t = .ok r ∧ r.typ = t := by
  obtain ⟨hI, hU, hF, hC⟩ := convertOp_src env t v.typ op h
  unfold Value.Convert
  rw [h]
  cases op with
  | cvtInt =>
    obtain ⟨i, hi⟩ := wf_int v hw (hI (Or.inl rfl))
    simp only [hi, makeInt]
    split <;> exact ⟨_, rfl, rfl⟩
  | cvtIntFloat =>
    obtain ⟨i, hi⟩ := wf_int v hw (hI (Or.inr (Or.inl rfl)))
    simp only [hi]
    exact ⟨_, rfl, rfl⟩
  | cvtIntString =>
    obtain ⟨i, hi⟩ := wf_int v hw (hI (Or.inr (Or.inr rfl)))
    simp only [hi]
    exact ⟨_, rfl, rfl⟩
  | cvtUint =>
    obtain ⟨n, hn⟩ := wf_uint v hw (hU (Or.inl rfl))
    simp only [hn, makeInt]
    split <;> exact ⟨_, rfl, rfl⟩
  | cvtUintFloat =>
    obtain ⟨n, hn⟩ := wf_uint v hw (hU (Or.inr (Or.inl rfl)))
    simp only [hn]
    exact ⟨_, rfl, rfl⟩
  | cvtUintString =>
    obtain ⟨n, hn⟩ := wf_uint v hw (hU (Or.inr (Or.inr rfl)))
    simp only [hn]
    exact ⟨_, rfl, rfl⟩
  | cvtFloatInt =>
    obtain ⟨f, hf⟩ := wf_float v hw (hF (Or.inl rfl))
    simp only [hf, makeInt]
    split <;> exact ⟨_, rfl, rfl⟩
  | cvtFloatUint =>
    obtain ⟨f, hf⟩ := wf_float v hw (hF (Or.inr (Or.inl rfl)))
    simp only [hf, makeInt]
    split <;> exact ⟨_, rfl, rfl⟩
  | cvtFloat =>
    obtain ⟨f, hf⟩ := wf_float v hw (hF (Or.inr (Or.inr rfl)))
    simp only [hf]
    exact ⟨_, rfl, rfl⟩
  | cvtComplex =>
    obtain ⟨re, im, hc⟩ := wf_complex v hw (hC rfl)
    simp only [hc]
    exact ⟨_, rfl, rfl⟩
  | cvtDirect => exact ⟨_, rfl, rfl⟩
  | cvtT2I => exact ⟨_, rfl, rfl⟩
  | cvtOther =>
    obtain ⟨r, hr⟩ := ho rfl
    simp only [hr]
    exact ⟨_, rfl, rfl⟩

/-- The value `Convert` returns has the target type. -/
theorem Convert_typ (env : Env) (v : Value) (t : GoType) (r : Value)
    (h : Value.Convert env v t = .ok r) : r.typ = t := by
  unfold Value.Convert at h
  have hm : ∀ x : Int, (makeInt env x t).typ = t := by
    intro x
    unfold makeInt
    split <;> rfl
  split at h <;> (try split at h) <;> cases h <;> first | rfl | exact hm _

/-- If `Convert` returns, there is a converter. -/
theorem Convert_ok_convertOp (env : Env) (v : Value) (t : GoType) (r : Value)
    (h : Value.Convert env v t = .ok r) : ∃ op, convertOp env t v.typ = some op := by
  unfold Value.Convert at h
  cases hc : convertOp env t v.typ with
  | none => rw [hc] at h; cases h
  | some op => exact ⟨op, rfl⟩

/-- Outside the complex shortcut and for a target that is not an interface,
`boundConst` returns a value of the target type. -/
theorem boundConst_typ (env : Env) (v : Value) (t : GoType) (r : Value)
    (hi : t.kind ≠ reflect.Interface)
    (hc : ¬ ((t.kind = reflect.Complex128 ∨ t.kind = reflect.Complex64) ∧
      (reflect.Int ≤ v.typ.kind ∧ v.typ.kind ≤ reflect.Float64)))
    (_hw : v.WellFormed = true) (h : boundConst env v t = .ok r) : r.typ = t := by
  unfold boundConst at h
  simp only [hc, if_false] at h
  cases hcv : Value.Convert env v t with
  | error e => rw [hcv] at h; cases h
  | ok r' =>
    rw [hcv] at h
    have ht := Convert_typ env v t r' hcv
    injection h with h
    rw [← h]
    unfold Value.Interface
    split
    · rw [if_neg (by rw [ht]; exact hi)]
      exact ht
    · exact ht

/-- Arithmetic of the kind ranges tested by `boundConst` and
`constIsConvertible`. -/
theorem kind_facts (k : Nat) :
    (k = reflect.String → isIntKind k = false ∧ isUintKind k = false ∧
        isFloatKind k = false ∧ isComplexKind k = false) ∧
      (isComplexKind k = true ↔ k = reflect.Complex128 ∨ k = reflect.Complex64) ∧
      (isComplexKind k = true → isIntKind k = false ∧ isUintKind k = false ∧
        isFloatKind k = false ∧ k ≠ reflect.String ∧ k ≠ reflect.Interface ∧
        k ≠ reflect.Bool ∧ k ≠ reflect.UnsafePointer) ∧
      ((reflect.Int ≤ k ∧ k ≤ reflect.Float64) ↔
        (isIntKind k = true ∨ isUintKind k = true ∨ isFloatKind k = true)) ∧
      ((reflect.Int ≤ k ∧ k ≤ reflect.Complex128) ↔
        (isIntKind k = true ∨ isUintKind k = true ∨ isFloatKind k = true ∨
          isComplexKind k = true)) := by
  have e1 : reflect.Int = (2 : Nat) := rfl
  have e2 : reflect.Int64 = (6 : Nat) := rfl
  have e3 : reflect.Uint = (7 : Nat) := rfl
  have e4 : reflect.Uintptr = (12 : Nat) := rfl
  have e5 : reflect.Float32 = (13 : Nat) := rfl
  have e6 : reflect.Float64 = (14 : Nat) := rfl
  have e7 : reflect.Complex64 = (15 : Nat) := rfl
  have e8 : reflect.Complex128 = (16 : Nat) := rfl
  have e9 : reflect.String = (24 : Nat) := rfl
  have e10 : reflect.Bool = (1 : Nat) := rfl
  have e11 : reflect.Interface = (20 : Nat) := rfl
  have e12 : reflect.UnsafePointer = (26 : Nat) := rfl
  simp only [isIntKind, isUintKind, isFloatKind, isComplexKind, e1, e2, e3, e4, e5, e6, e7, e8,
    e9, e10, e11, e12, Bool.and_eq_true, Bool.or_eq_true,
    decide_eq_true_eq, Bool.or_eq_false_iff, Bool.and_eq_false_imp, decide_eq_false_iff_not,
    ne_eq]
  clear e1 e2 e3 e4 e5 e6 e7 e8 e9 e10 e11 e12
  delta Kind
  omega

/-- String to string is a direct conversion. -/
theorem convertOp_string_string (env : Env) (t s : GoType) (ht : t.kind = reflect.String)
    (hs : s.kind = reflect.String) : convertOp env t s = some ConvOp.cvtDirect := by
  have h1 : isIntKind reflect.String = false := rfl
  have h2 : isUintKind reflect.String = false := rfl
  have h3 : isFloatKind reflect.String = false := rfl
  have h4 : isComplexKind reflect.String = false := rfl
  unfold convertOp
  simp [h1, h2, h3, h4, hs, ht]

/-- The converters from the real kinds to `float64`. -/
theorem convertOp_to_float64 (env : Env) (s : GoType) :
    (isIntKind s.kind = true → convertOp env exec.TyFloat64 s = some ConvOp.cvtIntFloat) ∧
      (isUintKind s.kind = true → convertOp env exec.TyFloat64 s = some ConvOp.cvtUintFloat) ∧
      (isFloatKind s.kind = true → convertOp env exec.TyFloat64 s = some ConvOp.cvtFloat) := by
  have d1 : isIntKind exec.TyFloat64.kind = false := rfl
  have d2 : isUintKind exec.TyFloat64.kind = false := rfl
  have d3 : isFloatKind exec.TyFloat64.kind = true := rfl
  refine ⟨fun h => ?_, fun h => ?_, fun h => ?_⟩
  · unfold convertOp
    simp [h, d1, d2, d3]
  · have hi : isIntKind s.kind = false := by
      cases hh : isIntKind s.kind
      · rfl
      · rw [((kind_excl s.kind).1 hh).1] at h; cases h
    unfold convertOp
    simp [h, hi, d1, d2, d3]
  · have hi : isIntKind s.kind = false := by
      cases hh : isIntKind s.kind
      · rfl
      · rw [((kind_excl s.kind).1 hh).2.1] at h; cases h
    have hu : isUintKind s.kind = false := by
      cases hh : isUintKind s.kind
      · rfl
      · rw [((kind_excl s.kind).2.1 hh).1] at h; cases h
    unfold convertOp
    simp [h, hi, hu, d1, d2, d3]

/-- Complex to complex is a complex conversion. -/
theorem convertOp_complex_complex (env : Env) (t s : GoType)
    (ht : isComplexKind t.kind = true) (hs : isComplexKind s.kind = true) :
    convertOp env t s = some ConvOp.cvtComplex := by
  obtain ⟨h1, h2, h3, _⟩ := (kind_facts s.kind).2.2.1 hs
  unfold convertOp
  simp [h1, h2, h3, hs, ht]

/-- Only a complex source converts to a complex type, as long as the structural
rules of `reflect` do not apply to complex targets. -/
theorem convertOp_to_complex (env : Env) (t s : GoType) (op : ConvOp)
    (ht : isComplexKind t.kind = true) (ho : env.convertibleOther t s = false)
    (h : convertOp env t s = some op) : isComplexKind s.kind = true := by
  obtain ⟨h1, h2, h3, h4, h5, h6, h7⟩ := (kind_facts t.kind).2.2.1 ht
  have hne : t ≠ exec.TyEmptyInterface := by
    intro he
    rw [he] at h5
    exact h5 rfl
  unfold convertOp at h
  simp only at h
  split_ifs at h <;> simp_all

/-- When `constIsConvertible` accepts a well-formed value, `boundConst` returns,
unless the converter is a structural one that panics on the value. -/
theorem boundConst_of_convertible (env : Env) (v : Value) (t : GoType)
    (hw : v.WellFormed = true)
    (hso : convertOp env t v.typ = some ConvOp.cvtOther → ∃ r, env.convOther v t = some r)
    (h : constIsConvertible env v t = true) :
    ∃ r, boundConst env v t = .ok r := by
  unfold constIsConvertible at h
  simp only at h
  by_cases hS : t.kind = reflect.String
  · rw [if_pos hS] at h
    have hs : v.typ.kind = reflect.String := by simpa using h
    have hnc : ¬ ((t.kind = reflect.Complex128 ∨ t.kind = reflect.Complex64) ∧
        (reflect.Int ≤ v.typ.kind ∧ v.typ.kind ≤ reflect.Float64)) := by
      intro hh
      rw [hS] at hh
      exact absurd hh.1 (by decide)
    obtain ⟨r, hr, _⟩ := Convert_ok env v t _ hw (convertOp_string_string env t v.typ hS hs)
      (fun hc => by cases hc)
    unfold boundConst
    simp only [hnc, if_false, hr]
    exact ⟨_, rfl⟩
  · rw [if_neg hS] at h
    by_cases hC : t.kind = reflect.Complex128 ∨ t.kind = reflect.Complex64
    · rw [if_pos hC] at h
      have hrange : reflect.Int ≤ v.typ.kind ∧ v.typ.kind ≤ reflect.Complex128 := by
        simpa using h
      have htc : isComplexKind t.kind = true := (kind_facts t.kind).2.1.2 hC
      by_cases hreal : reflect.Int ≤ v.typ.kind ∧ v.typ.kind ≤ reflect.Float64
      · have hcls := (kind_facts v.typ.kind).2.2.2.1.1 hreal
        obtain ⟨c1, c2, c3⟩ := convertOp_to_float64 env v.typ
        have hop : ∃ op, convertOp env exec.TyFloat64 v.typ = some op ∧
            (op = .cvtIntFloat ∨ op = .cvtUintFloat ∨ op = .cvtFloat) := by
          rcases hcls with h' | h' | h'
          · exact ⟨_, c1 h', Or.inl rfl⟩
          · exact ⟨_, c2 h', Or.inr (Or.inl rfl)⟩
          · exact ⟨_, c3 h', Or.inr (Or.inr rfl)⟩
        obtain ⟨op, hop, hopc⟩ := hop
        obtain ⟨hI, hU, hF, _⟩ := convertOp_src env exec.TyFloat64 v.typ op hop
        unfold boundConst
        simp only [hC, hreal, and_self, if_true, Value.Convert, hop]
        rcases hopc with rfl | rfl | rfl
        · obtain ⟨i, hi⟩ := wf_int v hw (hI (Or.inr (Or.inl rfl)))
          simp only [hi]
          exact ⟨_, rfl⟩
        · obtain ⟨n, hn⟩ := wf_uint v hw (hU (Or.inr (Or.inl rfl)))
          simp only [hn]
          exact ⟨_, rfl⟩
        · obtain ⟨f, hf⟩ := wf_float v hw (hF (Or.inr (Or.inr rfl)))
          simp only [hf]
          exact ⟨_, rfl⟩
      · have hall := (kind_facts v.typ.kind).2.2.2.2.1 hrange
        have hsc : isComplexKind v.typ.kind = true := by
          rcases hall with h' | h' | h' | h'
          · exact absurd ((kind_facts v.typ.kind).2.2.2.1.2 (Or.inl h')) hreal
          · exact absurd ((kind_facts v.typ.kind).2.2.2.1.2 (Or.inr (Or.inl h'))) hreal
          · exact absurd ((kind_facts v.typ.kind).2.2.2.1.2 (Or.inr (Or.inr h'))) hreal
          · exact h'
        obtain ⟨r, hr, _⟩ := Convert_ok env v t _ hw
          (convertOp_complex_complex env t v.typ htc hsc) (fun hc => by cases hc)
        have hnc : ¬ ((t.kind = reflect.Complex128 ∨ t.kind = reflect.Complex64) ∧
            (reflect.Int ≤ v.typ.kind ∧ v.typ.kind ≤ reflect.Float64)) :=
          fun hh => hreal hh.2
        unfold boundConst
        simp only [hnc, if_false, hr]
        exact ⟨_, rfl⟩
    · rw [if_neg hC] at h
      unfold GoType.ConvertibleTo at h
      obtain ⟨op, hop⟩ := Option.isSome_iff_exists.1 h
      obtain ⟨r, hr, _⟩ := Convert_ok env v t op hw hop
        (fun hc => hso (by rw [hop, hc]))
      have hnc : ¬ ((t.kind = reflect.Complex128 ∨ t.kind = reflect.Complex64) ∧
          (reflect.Int ≤ v.typ.kind ∧ v.typ.kind ≤ reflect.Float64)) :=
        fun hh => hC hh.1
      unfold boundConst
      simp only [hnc, if_false, hr]
      exact ⟨_, rfl⟩

/-- When `boundConst` returns for a target that is not of string kind,
`constIsConvertible` accepts the value. -/
theorem convertible_of_boundConst (env : Env) (v : Value) (t : GoType) (r : Value)
    (hS : t.kind ≠ reflect.String)
    (ho : isComplexKind t.kind = true → env.convertibleOther t v.typ = false)
    (h : boundConst env v t = .ok r) : constIsConvertible env v t = true := by
  unfold constIsConvertible
  simp only
  rw [if_neg hS]
  by_cases hC : t.kind = reflect.Complex128 ∨ t.kind = reflect.Complex64
  · rw [if_pos hC]
    have htc : isComplexKind t.kind = true := (kind_facts t.kind).2.1.2 hC
    by_cases hreal : reflect.Int ≤ v.typ.kind ∧ v.typ.kind ≤ reflect.Float64
    · have hcls := (kind_facts v.typ.kind).2.2.2.1.1 hreal
      have hall := (kind_facts v.typ.kind).2.2.2.2.2
        (hcls.elim Or.inl (fun h' => h'.elim (fun a => Or.inr (Or.inl a))
          (fun a => Or.inr (Or.inr (Or.inl a)))))
      simpa using hall
    · have hnc : ¬ ((t.kind = reflect.Complex128 ∨ t.kind = reflect.Complex64) ∧
          (reflect.Int ≤ v.typ.kind ∧ v.typ.kind ≤ reflect.Float64)) :=
        fun hh => hreal hh.2
      unfold boundConst at h
      simp only [hnc, if_false] at h
      cases hcv : Value.Convert env v t with
      | error e => rw [hcv] at h; cases h
      | ok r' =>
        obtain ⟨op, hop⟩ := Convert_ok_convertOp env v t r' hcv
        have hsc := convertOp_to_complex env t v.typ op htc (ho htc) hop
        have hall := (kind_facts v.typ.kind).2.2.2.2.2 (Or.inr (Or.inr (Or.inr hsc)))
        simpa using hall
  · rw [if_neg hC]
    have hnc : ¬ ((t.kind = reflect.Complex128 ∨ t.kind = reflect.Complex64) ∧
        (reflect.Int ≤ v.typ.kind ∧ v.typ.kind ≤ reflect.Float64)) :=
      fun hh => hC hh.1
    unfold boundConst at h
    simp only [hnc, if_false] at h
    cases hcv : Value.Convert env v t with
    | error e => rw [hcv] at h; cases h
    | ok r' =>
      obtain ⟨op, hop⟩ := Convert_ok_convertOp env v t r' hcv
      unfold GoType.ConvertibleTo
      rw [hop]
      rfl

/-- With base 0, step 1 and max the length, the loop visits the elements from
index `i` on, in order. -/
theorem visitedFrom_all (elts : List iValue) :
    ∀ (fuel i : Nat), i ≤ elts.length → elts.length - i ≤ fuel →
      visitedFrom elts elts.length 1 (fuel + 1) i = elts.drop i := by
  intro fuel
  induction fuel with
  | zero =>
    intro i hi hle
    have hlen : i = elts.length := by omega
    have hnlt : ¬ ((i : Int) < (elts.length : Int)) := by omega
    rw [visitedFrom, if_neg hnlt, hlen, List.drop_length]
  | succ n ih =>
    intro i hi hle
    by_cases hlt : i < elts.length
    · have hlt' : ((i : Int) < (elts.length : Int)) := by omega
      have hidx : goIndex elts (i : Int) = .ok elts[i] := by
        unfold goIndex
        rw [if_neg (by omega)]
        simp only [Int.toNat_ofNat, List.get?_eq_getElem?, List.getElem?_eq_getElem hlt]
      rw [visitedFrom, if_pos hlt', hidx]
      simp only
      have hnext : ((i : Int) + 1) = ((i + 1 : Nat) : Int) := by push_cast; rfl
      rw [hnext, ih (i + 1) (by omega) (by omega)]
      exact (List.drop_eq_getElem_cons hlt).symm
    · have hlen : i = elts.length := by omega
      have hnlt : ¬ ((i : Int) < (elts.length : Int)) := by omega
      rw [visitedFrom, if_neg hnlt, hlen, List.drop_length]

/-- With base 0, step 1 and max the length, the loop visits every element once, in
order. -/
theorem visited_all (elts : List iValue) :
    visited elts 0 elts.length 1 = elts := by
  unfold visited
  have := visitedFrom_all elts elts.length 0 (Nat.zero_le _) (by omega)
  simpa using this

/-- A pass whose body commutes on any two elements satisfying `P` gives the same
outcome on two orderings of elements that all satisfy `P`. -/
theorem foldElts_perm {σ : Type} (body : σ → iValue → Except Err (Option σ))
    (P : iValue → Prop)
    (hcomm : ∀ s x y, P x → P y → foldElts body s [x, y] = foldElts body s [y, x])
    {L L' : List iValue} (hp : L.Perm L') :
    (∀ e ∈ L, P e) → ∀ s, foldElts body s L = foldElts body s L' := by
  induction hp with
  | nil => intro _ s; rfl
  | cons x _ ih =>
    intro hP s
    simp only [foldElts]
    cases hb : body s x with
    | error err => rfl
    | ok r =>
      cases r with
      | none => rfl
      | some s' => exact ih (fun e he => hP e (List.mem_cons_of_mem _ he)) s'
  | swap x y l =>
    intro hP s
    have hx : P x := hP x (List.mem_cons_of_mem _ (List.mem_cons_self _ _))
    have hy : P y := hP y (List.mem_cons_self _ _)
    have h1 := foldElts_append body [y, x] l s
    have h2 := foldElts_append body [x, y] l s
    simp only [List.cons_append, List.nil_append] at h1 h2
    rw [h1, h2, hcomm s y x hy hx]
  | trans h₁ _ ih₁ ih₂ =>
    intro hP s
    rw [ih₁ hP s]
    exact ih₂ (fun e he => hP e (h₁.mem_iff.2 he)) s

/-- The first pass on an element of arity 1: either it raises the unbound kind to
at least the kind of the element, or it compares the bound type seen so far with
the type of the element. -/
theorem scanBody_shape (e : iValue) (h1 : e.NumValues = 1) (hv : e.Valid = true)
    (ht : e.isBound = true → ∃ T, e.Type = .ok (some T)) :
    (∃ k, ∀ s : Option GoType × Kind,
        scanBody s e = .ok (some (s.1, if s.2 < k then k else s.2))) ∨
      (∃ T, ∀ s : Option GoType × Kind,
        scanBody s e =
          if s.1 ≠ some T then (if s.1 ≠ none then .ok none else .ok (some (some T, s.2)))
          else .ok (some (s.1, s.2))) := by
  obtain ⟨k, hk⟩ := kind_of_single e h1 hv
  cases hb : isConstBound k with
  | false => exact Or.inl ⟨k, fun s => scanBody_unbound s e k h1 hk hb⟩
  | true =>
    have hbe : e.isBound = true := by simp [iValue.isBound, hk, hb]
    obtain ⟨T, hT⟩ := ht hbe
    exact Or.inr ⟨T, fun s => scanBody_bound s e k (some T) h1 hk hb hT⟩

/-- The first pass commutes on two elements of arity 1 whose bound ones report a
type. -/
theorem scanBody_comm (s : Option GoType × Kind) (x y : iValue)
    (hx : x.NumValues = 1 ∧ x.Valid = true ∧ (x.isBound = true → ∃ T, x.Type = .ok (some T)))
    (hy : y.NumValues = 1 ∧ y.Valid = true ∧ (y.isBound = true → ∃ T, y.Type = .ok (some T))) :
    foldElts scanBody s [x, y] = foldElts scanBody s [y, x] := by
  obtain ⟨tb, ku⟩ := s
  rcases scanBody_shape x hx.1 hx.2.1 hx.2.2 with ⟨kx, hsx⟩ | ⟨Tx, hsx⟩ <;>
  rcases scanBody_shape y hy.1 hy.2.1 hy.2.2 with ⟨ky, hsy⟩ | ⟨Ty, hsy⟩
  · simp only [foldElts, hsx, hsy]
    have : (if (if ku < kx then kx else ku) < ky then ky else if ku < kx then kx else ku) =
        (if (if ku < ky then ky else ku) < kx then kx else if ku < ky then ky else ku) := by
      delta Kind at *
      split_ifs <;> omega
    rw [this]
  · simp only [foldElts, hsx, hsy]
    by_cases h1 : tb ≠ some Ty
    · by_cases h2 : tb ≠ none
      · simp [h1, h2]
      · simp [h1, h2, hsx]
    · simp [h1, hsx]
  · simp only [foldElts, hsx, hsy]
    by_cases h1 : tb ≠ some Tx
    · by_cases h2 : tb ≠ none
      · simp [h1, h2]
      · simp [h1, h2, hsy]
    · simp [h1, hsy]
  · simp only [foldElts, hsx, hsy]
    cases tb with
    | none =>
      by_cases hxy : Tx = Ty
      · subst hxy; simp
      · have hyx : ¬ Ty = Tx := fun h => hxy h.symm
        simp [hxy, hyx]
    | some T0 =>
      by_cases h1 : T0 = Tx
      · subst h1
        by_cases h2 : T0 = Ty
        · subst h2; simp
        · have h2' : ¬ Ty = T0 := fun h => h2 h.symm
          simp [h2, h2']
      · have h1' : ¬ Tx = T0 := fun h => h1 h.symm
        by_cases h2 : T0 = Ty
        · subst h2; simp [h1, h1']
        · simp [h1, h2]

/-- The second pass commutes on any two elements. -/
theorem convertibleBody_comm (env : Env) (T : GoType) (s : Unit) (x y : iValue) :
    foldElts (convertibleBody env T) s [x, y] = foldElts (convertibleBody env T) s [y, x] := by
  have shape : ∀ e : iValue,
      (∀ u, convertibleBody env T u e = .ok (some ())) ∨
        (∀ u, convertibleBody env T u e = .ok none) := by
    intro e
    cases e with
    | constVal c =>
      cases hc : constIsConvertible env c.v T with
      | true => exact Or.inl fun u => by simp [convertibleBody, hc]
      | false => exact Or.inr fun u => by simp [convertibleBody, hc]
    | goValue t => exact Or.inl fun _ => rfl
    | nonValue => exact Or.inl fun _ => rfl
    | funcResults t => exact Or.inl fun _ => rfl
    | qlFunc t => exact Or.inl fun _ => rfl
    | goFunc t => exact Or.inl fun _ => rfl
  rcases shape x with hx | hx <;> rcases shape y with hy | hy <;>
    simp only [foldElts, hx, hy]

/-- The outcome of `boundKind` by the kind of the constant: the kind itself when
bound, a concrete kind for the three unbound markers, the panic otherwise. -/
theorem boundKind_by_kind (c : constVal) :
    (isConstBound c.kind = true ∧ c.boundKind = .ok c.kind) ∨
      ((c.kind = astutil.ConstUnboundInt ∨ c.kind = astutil.ConstUnboundFloat ∨
          c.kind = astutil.ConstUnboundComplex) ∧ isConstBound c.kind = false ∧
        ∃ k, c.boundKind = .ok k ∧ k ≠ 0) ∨
      (¬ (c.kind = astutil.ConstUnboundInt ∨ c.kind = astutil.ConstUnboundFloat ∨
          c.kind = astutil.ConstUnboundComplex) ∧ isConstBound c.kind = false ∧
        c.boundKind = .error Err.unexpectedKind) := by
  cases hb : isConstBound c.kind with
  | true =>
    left
    exact ⟨rfl, by simp [constVal.boundKind, hb]⟩
  | false =>
    right
    by_cases hm : c.kind = astutil.ConstUnboundInt ∨ c.kind = astutil.ConstUnboundFloat ∨
        c.kind = astutil.ConstUnboundComplex
    · exact Or.inl ⟨hm, rfl, boundKind_unbound_ok c hb hm⟩
    · refine Or.inr ⟨hm, rfl, ?_⟩
      have h1 : ¬ c.kind = astutil.ConstUnboundInt := fun h => hm (Or.inl h)
      have h2 : ¬ c.kind = astutil.ConstUnboundFloat := fun h => hm (Or.inr (Or.inl h))
      have h3 : ¬ c.kind = astutil.ConstUnboundComplex := fun h => hm (Or.inr (Or.inr h))
      unfold constVal.boundKind
      simp [hb, h1, h2, h3]

/-- The third pass on a constant of the selected kind whose `boundKind` panics. -/
theorem defaultBody_hit_error (ku kb : Kind) (c : constVal) (err : Err) (hk : c.kind = ku)
    (hbk : c.boundKind = .error err) :
    defaultBody ku kb (iValue.constVal c) = .error err := by
  simp [defaultBody, hk, hbk]

/-- The third pass commutes on any two elements. -/
theorem defaultBody_comm (ku : Kind) (s : Kind) (x y : iValue) :
    foldElts (defaultBody ku) s [x, y] = foldElts (defaultBody ku) s [y, x] := by
  by_cases hxh : ∃ c, x = iValue.constVal c ∧ c.kind = ku
  · by_cases hyh : ∃ c, y = iValue.constVal c ∧ c.kind = ku
    · obtain ⟨cx, rfl, hkx⟩ := hxh
      obtain ⟨cy, rfl, hky⟩ := hyh
      rcases boundKind_by_kind cx with ⟨hbx, hx⟩ | ⟨hmx, hbx, kx, hx, hx0⟩ | ⟨hmx, hbx, hx⟩ <;>
      rcases boundKind_by_kind cy with ⟨hby, hy⟩ | ⟨hmy, hby, ky, hy, hy0⟩ | ⟨hmy, hby, hy⟩
      · rw [hkx] at hx
        rw [hky] at hy
        simp only [foldElts, defaultBody_hit ku _ ku cx hkx hx,
          defaultBody_hit ku _ ku cy hky hy]
      · rw [hkx] at hbx; rw [hky] at hby; rw [hbx] at hby; cases hby
      · rw [hkx] at hbx; rw [hky] at hby; rw [hbx] at hby; cases hby
      · rw [hkx] at hbx; rw [hky] at hby; rw [hbx] at hby; cases hby
      · simp only [foldElts, defaultBody_hit ku _ kx cx hkx hx,
          defaultBody_hit ku _ ky cy hky hy]
        have hsym : (ky = kx) = (kx = ky) := propext ⟨Eq.symm, Eq.symm⟩
        by_cases h1 : kx = s <;> by_cases h2 : ky = s <;> by_cases h3 : s = 0 <;>
          by_cases h4 : kx = ky <;> simp_all
      · rw [hkx] at hmx; rw [hky] at hmy; exact absurd hmx hmy
      · rw [hkx] at hbx; rw [hky] at hby; rw [hbx] at hby; cases hby
      · rw [hkx] at hmx; rw [hky] at hmy; exact absurd hmy hmx
      · simp only [foldElts, defaultBody_hit_error ku _ cx _ hkx hx,
          defaultBody_hit_error ku _ cy _ hky hy]
    · have hmy : ∀ c, y = iValue.constVal c → c.kind ≠ ku := fun c hc hk => hyh ⟨c, hc, hk⟩
      simp only [foldElts, defaultBody_miss ku _ y hmy]
  · have hmx : ∀ c, x = iValue.constVal c → c.kind ≠ ku := fun c hc hk => hxh ⟨c, hc, hk⟩
    simp only [foldElts, defaultBody_miss ku _ x hmx]

/-- The three passes give the same outcome on two orderings of elements of arity
1 whose bound ones report a type. -/
theorem unifyElts_perm (env : Env) {L L' : List iValue} (hp : L.Perm L')
    (hall : ∀ e ∈ L, e.NumValues = 1 ∧ e.Valid = true ∧
      (e.isBound = true → ∃ T, e.Type = .ok (some T))) :
    unifyElts env L = unifyElts env L' := by
  have h1 := foldElts_perm scanBody
    (fun e => e.NumValues = 1 ∧ e.Valid = true ∧
      (e.isBound = true → ∃ T, e.Type = .ok (some T)))
    (fun s x y hx hy => scanBody_comm s x y hx hy) hp hall (none, 0)
  have h2 : ∀ T, foldElts (convertibleBody env T) () L =
      foldElts (convertibleBody env T) () L' := fun T =>
    foldElts_perm (convertibleBody env T) (fun _ => True)
      (fun s x y _ _ => convertibleBody_comm env T s x y) hp (fun _ _ => trivial) ()
  have h3 : ∀ ku, foldElts (defaultBody ku) 0 L = foldElts (defaultBody ku) 0 L' := fun ku =>
    foldElts_perm (defaultBody ku) (fun _ => True)
      (fun s x y _ _ => defaultBody_comm ku s x y) hp (fun _ _ => trivial) 0
  unfold unifyElts
  rw [h1]
  cases foldElts scanBody (none, 0) L' with
  | error e => rfl
  | ok r =>
    cases r with
    | none => rfl
    | some s =>
      obtain ⟨tb, ku⟩ := s
      cases tb with
      | none => simp only [h3]
      | some T => simp only [h2]

/-! ## The claims -/

/-- C1, counterexample: a constant of the concrete kind `int64` with a pending
patch slot, bound against `int8` (another kind, not the empty interface): `bound`
does not fail; it converts the raw value (300 becomes 44), sets the kind to
`int8` and emits `ReservedAsPush` on the builder. -/
theorem C1_pending_slot_converts :
    isConstBound reflect.Int64 = true ∧ exec.TyInt8.kind ≠ reflect.Int64 ∧
      exec.TyInt8 ≠ exec.TyEmptyInterface ∧
      constVal.bound sampleEnv ⟨⟨tyInt64, .int 300⟩, reflect.Int64, 0⟩ exec.TyInt8 [] =
        ⟨none, ⟨⟨exec.TyInt8, .int 44⟩, reflect.Int8, 0⟩,
          [BuilderCall.ReservedAsPush 0 ⟨exec.TyInt8, .int 44⟩]⟩ := by
  decide

/-- C1, amended: for every constant whose patch slot is `InvalidReserved` and
every target type `t` whose kind differs from the constant's kind and that is not
the empty-interface type, `bound(t, b)` fails with the type-mismatch error; the
raw value, the kind and the slot are unchanged and nothing is emitted on `b`. -/
theorem C1_bound_mismatch_fails (env : Env) (p : constVal) (t : GoType) (b : Builder)
    (hr : p.reserve = exec.InvalidReserved) (hk : t.kind ≠ p.kind)
    (ht : t ≠ exec.TyEmptyInterface) :
    constVal.bound env p t b = ⟨some Err.typeMismatch, p, b⟩ := by
  unfold constVal.bound
  have hk2 : p.kind ≠ t.kind := fun h => hk h.symm
  simp [hr, hk2, ht]

/-- C1, witness: an `int64` constant without a pending slot, bound against
`int8`. -/
theorem C1_bound_mismatch_fails_witness :
    constVal.bound sampleEnv ⟨⟨tyInt64, .int 300⟩, reflect.Int64, exec.InvalidReserved⟩
      exec.TyInt8 [] =
      ⟨some Err.typeMismatch, ⟨⟨tyInt64, .int 300⟩, reflect.Int64, exec.InvalidReserved⟩, []⟩ :=
  C1_bound_mismatch_fails sampleEnv _ exec.TyInt8 [] rfl (by decide) (by decide)

/-- C2: for every constant of an unbound kind with a pending patch slot `r` and
every type `t` to which its raw value converts, after `bound(t, b)` the kind is
`t.Kind()`, the raw value is `boundConst(old raw value, t)`, the slot is still
`r`, and exactly one call was added to the builder, `ReservedAsPush(r, v)` with
`v` the converted value. -/
theorem C2_bound_unbound_converts (env : Env) (p : constVal) (t : GoType) (b : Builder)
    (v : Value) (_hu : isConstBound p.kind = false) (hr : p.reserve ≠ exec.InvalidReserved)
    (hv : boundConst env p.v t = .ok v) :
    constVal.bound env p t b =
      ⟨none, { v := v, kind := t.kind, reserve := p.reserve },
        b ++ [BuilderCall.ReservedAsPush p.reserve v]⟩ := by
  unfold constVal.bound
  simp [hr, hv, exec.Reserved.Push]

/-- C2, witness: the unbound-integer constant 5 with slot 7, bound to `int8`. -/
theorem C2_bound_unbound_converts_witness :
    constVal.bound sampleEnv ⟨⟨tyInt64, .int 5⟩, astutil.ConstUnboundInt, 7⟩ exec.TyInt8 [] =
      ⟨none, { v := ⟨exec.TyInt8, .int 5⟩, kind := exec.TyInt8.kind, reserve := 7 },
        [] ++ [BuilderCall.ReservedAsPush 7 ⟨exec.TyInt8, .int 5⟩]⟩ :=
  C2_bound_unbound_converts sampleEnv ⟨⟨tyInt64, .int 5⟩, astutil.ConstUnboundInt, 7⟩
    exec.TyInt8 [] ⟨exec.TyInt8, .int 5⟩ (by decide) (by decide) (by decide)

/-- C3, counterexample: the unbound-integer constant 300 with pending slot 0 is
bound to `int` and then to `int8`. The second call does not take the
already-bound path: it converts the raw value again (300 becomes 44), changes
the kind from `int` to `int8`, and issues a second `ReservedAsPush` for slot 0. -/
theorem C3_second_bound_pushes_again :
    (constVal.bound sampleEnv ⟨⟨tyInt64, .int 300⟩, astutil.ConstUnboundInt, 0⟩ exec.TyInt []) =
        ⟨none, ⟨⟨exec.TyInt, .int 300⟩, reflect.Int, 0⟩,
          [BuilderCall.ReservedAsPush 0 ⟨exec.TyInt, .int 300⟩]⟩ ∧
      constVal.bound sampleEnv ⟨⟨exec.TyInt, .int 300⟩, reflect.Int, 0⟩ exec.TyInt8
          [BuilderCall.ReservedAsPush 0 ⟨exec.TyInt, .int 300⟩] =
        ⟨none, ⟨⟨exec.TyInt8, .int 44⟩, reflect.Int8, 0⟩,
          [BuilderCall.ReservedAsPush 0 ⟨exec.TyInt, .int 300⟩,
            BuilderCall.ReservedAsPush 0 ⟨exec.TyInt8, .int 44⟩]⟩ := by
  decide

/-- C3, amended: for every constant with a pending patch slot `r` and every
sequence of successful `bound` calls on it, `ReservedAsPush` is issued for `r`
once per call: the slot is still `r` after each call, so every call takes the
conversion path. There are values `vs`, one per call, such that each call
converts the raw value left by the call before it (the initial raw value for the
first call) to its target type, giving the next value of `vs`; the constant ends
with the last of them as raw value, the kind of the last target type and the
slot `r`; and the builder has received `ReservedAsPush(r, v)` for each `v` of
`vs`, in order, and nothing else. -/
theorem C3_one_push_per_bound_call (env : Env) (p : constVal) (b : Builder)
    (ts : List GoType) (hr : p.reserve ≠ exec.InvalidReserved)
    (hok : (boundSeq env p b ts).err = none) :
    ∃ vs : List Value, vs.length = ts.length ∧
      (∀ x ∈ (p.v :: vs).zip (ts.zip vs), boundConst env x.1 x.2.1 = .ok x.2.2) ∧
      boundSeq env p b ts =
        ⟨none, ⟨(vs.getLast?).getD p.v, ((ts.getLast?).map GoType.kind).getD p.kind,
            p.reserve⟩,
          b ++ vs.map (BuilderCall.ReservedAsPush p.reserve)⟩ :=
  boundSeq_trace env ts p b hr hok

/-- C3, witness: the unbound-integer constant 300 with slot 0, bound to `int`
and then to `int8`: the values pushed for slot 0 are 300 as `int` and then 44 as
`int8`. -/
theorem C3_one_push_per_bound_call_witness :
    (∃ vs : List Value, vs.length = [exec.TyInt, exec.TyInt8].length ∧
      (∀ x ∈ ((⟨tyInt64, .int 300⟩ : Value) :: vs).zip ([exec.TyInt, exec.TyInt8].zip vs),
        boundConst sampleEnv x.1 x.2.1 = .ok x.2.2) ∧
      boundSeq sampleEnv ⟨⟨tyInt64, .int 300⟩, astutil.ConstUnboundInt, 0⟩ []
          [exec.TyInt, exec.TyInt8] =
        ⟨none, ⟨(vs.getLast?).getD ⟨tyInt64, .int 300⟩,
            (([exec.TyInt, exec.TyInt8].getLast?).map GoType.kind).getD
              astutil.ConstUnboundInt, 0⟩,
          [] ++ vs.map (BuilderCall.ReservedAsPush 0)⟩) ∧
      boundSeq sampleEnv ⟨⟨tyInt64, .int 300⟩, astutil.ConstUnboundInt, 0⟩ []
          [exec.TyInt, exec.TyInt8] =
        ⟨none, ⟨⟨exec.TyInt8, .int 44⟩, reflect.Int8, 0⟩,
          [BuilderCall.ReservedAsPush 0 ⟨exec.TyInt, .int 300⟩,
            BuilderCall.ReservedAsPush 0 ⟨exec.TyInt8, .int 44⟩]⟩ :=
  ⟨C3_one_push_per_bound_call sampleEnv ⟨⟨tyInt64, .int 300⟩, astutil.ConstUnboundInt, 0⟩ []
    [exec.TyInt, exec.TyInt8] (by decide) (by decide), by decide⟩

/-- C4: `binaryOp` returns a constant whose kind is the governing kind of the
operands: the bound operand's kind when exactly one operand is bound, in either
position, and the higher of the two unbound kinds when both are unbound; so
unbound-int with unbound-int gives unbound-int, and unbound-int with
unbound-float gives unbound-float in either order. The operator accepts the real
kind, and the conversions of the operands and the operator call succeed. -/
theorem C4_binaryOp_result_kind (env : Env) (op : Operator) (x y : constVal)
    (i : OperatorInfo) (t : GoType) (vx vy v : Value)
    (hi : env.getInfo op = some i) (hw : i.InFirst < 2 ^ 64)
    (hm : i.InFirst.testBit (binaryKinds x y).2 = true)
    (ht : exec.TypeFromKind (binaryKinds x y).2 = some t)
    (hx : boundConst env x.v t = .ok vx) (hy : boundConst env y.v t = .ok vy)
    (hv : env.callBuiltinOp (binaryKinds x y).2 op [vx, vy] = some v) :
    ∃ c, binaryOp env op x y = .ok c ∧
      (isConstBound x.kind = true → isConstBound y.kind = false → c.kind = x.kind) ∧
      (isConstBound x.kind = false → isConstBound y.kind = true → c.kind = y.kind) ∧
      (isConstBound x.kind = false → isConstBound y.kind = false →
        c.kind = max x.kind y.kind) ∧
      (x.kind = astutil.ConstUnboundInt → y.kind = astutil.ConstUnboundInt →
        c.kind = astutil.ConstUnboundInt) ∧
      (x.kind = astutil.ConstUnboundInt → y.kind = astutil.ConstUnboundFloat →
        c.kind = astutil.ConstUnboundFloat) ∧
      (x.kind = astutil.ConstUnboundFloat → y.kind = astutil.ConstUnboundInt →
        c.kind = astutil.ConstUnboundFloat) := by
  refine ⟨{ kind := (binaryKinds x y).1, v := v, reserve := -1 }, ?_, ?_⟩
  · unfold binaryOp
    simp [hi, maskRejects_eq _ _ hw, hm, ht, hx, hy, hv]
  · have hmax : isConstBound x.kind = false → isConstBound y.kind = false →
        (binaryKinds x y).1 = max x.kind y.kind := by
      intro hbx hby
      unfold binaryKinds
      simp only [hbx, hby]
      by_cases hlt : x.kind < y.kind
      · simp [hlt, Nat.max_eq_right (Nat.le_of_lt hlt)]
      · simp [hlt, Nat.max_eq_left (Nat.le_of_not_lt hlt)]
    refine ⟨?_, ?_, hmax, ?_, ?_, ?_⟩
    · intro hbx _
      simp [binaryKinds, hbx]
    · intro hbx hby
      simp [binaryKinds, hbx, hby]
    · intro hxk hyk
      simp only
      rw [hmax (by rw [hxk]; decide) (by rw [hyk]; decide), hxk, hyk]
      decide
    · intro hxk hyk
      simp only
      rw [hmax (by rw [hxk]; decide) (by rw [hyk]; decide), hxk, hyk]
      decide
    · intro hxk hyk
      simp only
      rw [hmax (by rw [hxk]; decide) (by rw [hyk]; decide), hxk, hyk]
      decide

/-- C4, witness: an unbound-integer constant folded with a constant bound to
`int32` gives a constant of kind `int32`. -/
theorem C4_binaryOp_result_kind_witness :
    ∃ c, binaryOp sampleEnv 0 ⟨⟨tyInt64, .int 5⟩, astutil.ConstUnboundInt, exec.InvalidReserved⟩
        ⟨⟨tyInt64, .int 7⟩, reflect.Int32, exec.InvalidReserved⟩ = .ok c ∧ c.kind = reflect.Int32 :=
  let x : constVal := ⟨⟨tyInt64, .int 5⟩, astutil.ConstUnboundInt, exec.InvalidReserved⟩
  let y : constVal := ⟨⟨tyInt64, .int 7⟩, reflect.Int32, exec.InvalidReserved⟩
  match C4_binaryOp_result_kind sampleEnv 0 x y ⟨2 ^ 13 - 4⟩ ⟨"int32", reflect.Int32⟩
      ⟨⟨"int32", reflect.Int32⟩, .int 5⟩ ⟨⟨"int32", reflect.Int32⟩, .int 7⟩
      ⟨⟨"int32", reflect.Int32⟩, .int 12⟩
      (by decide) (by decide) (by decide) (by decide) (by decide) (by decide) (by decide) with
  | ⟨c, hc, _, h2, _⟩ => ⟨c, hc, h2 (by decide) (by decide)⟩

/-- C8, counterexample: the constant `unaryOp` returns for the unbound-integer
constant 5 has the patch slot `InvalidReserved`; although 5 converts to `int`, a
following `bound(int, b)` fails with the type-mismatch error, the kind stays
unbound-integer and nothing is emitted. -/
theorem C8_unaryOp_slot_is_invalid :
    unaryOp sampleEnv 0 ⟨⟨tyInt64, .int 5⟩, astutil.ConstUnboundInt, 3⟩ =
        .ok ⟨⟨tyInt64, .int 5⟩, astutil.ConstUnboundInt, exec.InvalidReserved⟩ ∧
      boundConst sampleEnv ⟨tyInt64, .int 5⟩ exec.TyInt = .ok ⟨exec.TyInt, .int 5⟩ ∧
      constVal.bound sampleEnv ⟨⟨tyInt64, .int 5⟩, astutil.ConstUnboundInt, exec.InvalidReserved⟩
          exec.TyInt [] =
        ⟨some Err.typeMismatch,
          ⟨⟨tyInt64, .int 5⟩, astutil.ConstUnboundInt, exec.InvalidReserved⟩, []⟩ := by
  decide

/-- C8, amended: for every unbound constant `x` and every operator that accepts
the real kind of `x`, `unaryOp(op, x)` returns a constant of kind `x.kind` whose
patch slot is `InvalidReserved`, as `newConstVal` gives; a following
`bound(t, b)` with a type `t` (of concrete kind) takes the already-bound branch:
it fails with the type-mismatch error unless `t` is the empty-interface type,
and in both cases leaves the constant and the builder unchanged. -/
theorem C8_unaryOp_result_takes_bound_branch (env : Env) (op : Operator) (x : constVal)
    (i : OperatorInfo) (t : GoType) (vx v : Value)
    (hu : isConstBound x.kind = false)
    (hi : env.getInfo op = some i) (hw : i.InFirst < 2 ^ 64)
    (hm : i.InFirst.testBit (unaryKindReal x) = true)
    (ht : exec.TypeFromKind (unaryKindReal x) = some t)
    (hx : boundConst env x.v t = .ok vx)
    (hv : env.callBuiltinOp (unaryKindReal x) op [vx] = some v) :
    unaryOp env op x = .ok ⟨v, x.kind, exec.InvalidReserved⟩ ∧
      ∀ (t' : GoType) (b : Builder), isConstBound t'.kind = true →
        constVal.bound env ⟨v, x.kind, exec.InvalidReserved⟩ t' b =
          ⟨if t' = exec.TyEmptyInterface then none else some Err.typeMismatch,
            ⟨v, x.kind, exec.InvalidReserved⟩, b⟩ := by
  constructor
  · unfold unaryOp
    simp [hi, maskRejects_eq _ _ hw, hm, ht, hx, hv, exec.InvalidReserved]
  · intro t' b hb
    have hne : x.kind ≠ t'.kind := by
      intro h
      rw [h, hb] at hu
      cases hu
    unfold constVal.bound
    by_cases he : t' = exec.TyEmptyInterface <;> simp [hne, he]

/-- C8, witness: the operator of the sample environment on the unbound-integer
constant 5. -/
theorem C8_unaryOp_result_takes_bound_branch_witness :
    unaryOp sampleEnv 0 ⟨⟨tyInt64, .int 5⟩, astutil.ConstUnboundInt, 3⟩ =
        .ok ⟨⟨tyInt64, .int 5⟩, astutil.ConstUnboundInt, exec.InvalidReserved⟩ ∧
      constVal.bound sampleEnv
          ⟨⟨tyInt64, .int 5⟩, astutil.ConstUnboundInt, exec.InvalidReserved⟩ exec.TyInt8 [] =
        ⟨some Err.typeMismatch,
          ⟨⟨tyInt64, .int 5⟩, astutil.ConstUnboundInt, exec.InvalidReserved⟩, []⟩ :=
  have h := C8_unaryOp_result_takes_bound_branch sampleEnv 0
    ⟨⟨tyInt64, .int 5⟩, astutil.ConstUnboundInt, 3⟩ ⟨2 ^ 13 - 4⟩ tyInt64
    ⟨tyInt64, .int 5⟩ ⟨tyInt64, .int 5⟩
    (by decide) (by decide) (by decide) (by decide) (by decide) (by decide) (by decide)
  ⟨h.1, h.2 exec.TyInt8 [] (by decide)⟩

/-- C9, counterexample: the unbound-integer constant 5, stored as `int64`,
default-binds to the kind `int` (type `int`), whereas `realKindOf` gives the kind
`int64` for unbound-integer; the two kinds differ. -/
theorem C9_default_kind_is_int_not_int64 :
    constVal.boundKind ⟨⟨tyInt64, .int 5⟩, astutil.ConstUnboundInt, exec.InvalidReserved⟩ =
        .ok reflect.Int ∧
      boundType (.constVal ⟨⟨tyInt64, .int 5⟩, astutil.ConstUnboundInt, exec.InvalidReserved⟩) =
        .ok (some exec.TyInt) ∧
      realKindOf astutil.ConstUnboundInt = reflect.Int64 ∧
      reflect.Int ≠ reflect.Int64 := by
  decide

/-- C9, amended: for every unbound-integer constant whose raw value is stored as
an `int64`, default binding (`boundKind`, `boundType`) yields the kind `int` and
the type `int`, which is not the kind `int64` that `realKindOf` uses; converting
the raw value to `int` yields the same number whenever it fits the width of
`int` (always, on a 64-bit host). -/
theorem C9_default_binding_of_int64_raw (env : Env) (p : constVal) (i : Int)
    (hk : p.kind = astutil.ConstUnboundInt) (hv : p.v = ⟨tyInt64, .int i⟩)
    (hw : 0 < env.intBits)
    (hlo : -(2 ^ (env.intBits - 1)) ≤ i) (hhi : i < 2 ^ (env.intBits - 1)) :
    p.boundKind = .ok reflect.Int ∧
      boundType (.constVal p) = .ok (some exec.TyInt) ∧
      realKindOf p.kind = reflect.Int64 ∧
      reflect.Int ≠ reflect.Int64 ∧
      boundConst env p.v exec.TyInt = .ok ⟨exec.TyInt, .int i⟩ := by
  have hbk : p.boundKind = .ok reflect.Int := by
    unfold constVal.boundKind
    rw [hk, hv]
    simp [isConstBound, astutil.ConstUnboundInt, reflect.UnsafePointer]
  refine ⟨hbk, ?_, ?_, by decide, ?_⟩
  · simp [boundType, constVal.boundType, hbk]
    decide
  · rw [hk]; decide
  · rw [hv]
    have hc : convertOp env exec.TyInt tyInt64 = some ConvOp.cvtInt := rfl
    have hb : kindBits env exec.TyInt.kind = env.intBits := rfl
    have hk1 : ¬ ((exec.TyInt.kind = reflect.Complex128 ∨ exec.TyInt.kind = reflect.Complex64) ∧
        (reflect.Int ≤ tyInt64.kind ∧ tyInt64.kind ≤ reflect.Float64)) := by decide
    have hk2 : isIntKind exec.TyInt.kind = true := rfl
    unfold boundConst
    simp only [hk1, if_false, Value.Convert, hc, makeInt, hk2, if_true, hb,
      wrapSigned_of_fits _ _ hw hlo hhi]
    rfl

/-- C9, witness: the unbound-integer constant -9 on a 64-bit host. -/
theorem C9_default_binding_of_int64_raw_witness :
    constVal.boundKind ⟨⟨tyInt64, .int (-9)⟩, astutil.ConstUnboundInt, exec.InvalidReserved⟩ =
        .ok reflect.Int ∧
      boundConst sampleEnv ⟨tyInt64, .int (-9)⟩ exec.TyInt = .ok ⟨exec.TyInt, .int (-9)⟩ :=
  have h := C9_default_binding_of_int64_raw sampleEnv
    ⟨⟨tyInt64, .int (-9)⟩, astutil.ConstUnboundInt, exec.InvalidReserved⟩ (-9) rfl rfl
    (by decide) (by decide) (by decide)
  ⟨h.1, h.2.2.2.2⟩

/-- C10: for every known operator, with `InFirst` a 64-bit mask, `unaryOp` fails
with the invalid-operand error exactly when the bit of `kindReal` (the kind of
`x` when bound, else its default real kind) is not set in `InFirst`, and
`binaryOp` fails with its invalid-operand error exactly when the bit of the
governing real kind is not set. -/
theorem C10_mask_decides_invalid_operand (env : Env) (op : Operator) (i : OperatorInfo)
    (x y : constVal) (hi : env.getInfo op = some i) (hw : i.InFirst < 2 ^ 64) :
    (i.InFirst.testBit (if isConstBound x.kind then x.kind else realKindOf x.kind) = false ↔
        unaryOp env op x = .error Err.unaryInvalidOperand) ∧
      (i.InFirst.testBit
            (if isConstBound x.kind then x.kind
              else if isConstBound y.kind then y.kind
              else if x.kind < y.kind then realKindOf y.kind
              else realKindOf x.kind) = false ↔
        binaryOp env op x y = .error Err.binaryInvalidOperand) := by
  constructor
  · exact (unaryOp_invalid_iff env op i x hi hw).symm
  · rw [← binaryKinds_snd]
    exact (binaryOp_invalid_iff env op i x y hi hw).symm

/-- C10, witness: the integer operator of the sample environment rejects an
unbound-float operand and does not reject two unbound-integer operands. -/
theorem C10_mask_decides_invalid_operand_witness :
    unaryOp sampleEnv 0 ⟨⟨exec.TyFloat64, .float 0⟩, astutil.ConstUnboundFloat, 0⟩ =
        .error Err.unaryInvalidOperand ∧
      binaryOp sampleEnv 0 ⟨⟨tyInt64, .int 1⟩, astutil.ConstUnboundInt, 0⟩
          ⟨⟨tyInt64, .int 2⟩, astutil.ConstUnboundInt, 0⟩ ≠
        .error Err.binaryInvalidOperand :=
  have h := C10_mask_decides_invalid_operand sampleEnv 0 ⟨2 ^ 13 - 4⟩
  ⟨(h ⟨⟨exec.TyFloat64, .float 0⟩, astutil.ConstUnboundFloat, 0⟩
      ⟨⟨tyInt64, .int 2⟩, astutil.ConstUnboundInt, 0⟩ (by decide) (by decide)).1.1 (by decide),
    fun hne =>
      absurd ((h ⟨⟨tyInt64, .int 1⟩, astutil.ConstUnboundInt, 0⟩
        ⟨⟨tyInt64, .int 2⟩, astutil.ConstUnboundInt, 0⟩ (by decide) (by decide)).2.2 hne)
        (by decide)⟩

/-- C5, counterexample: the literal `[1, 2.5]` holds an unbound-integer and an
unbound-float constant, whose default kinds `int` and `float64` differ, and no
bound element; `boundElementType` returns the type `float64`, not nil. -/
theorem C5_int_float_literal_unifies :
    constVal.boundKind ⟨⟨tyInt64, .int 1⟩, astutil.ConstUnboundInt, exec.InvalidReserved⟩ =
        .ok reflect.Int ∧
      constVal.boundKind
          ⟨⟨exec.TyFloat64, .float 0x4004000000000000⟩, astutil.ConstUnboundFloat,
            exec.InvalidReserved⟩ = .ok reflect.Float64 ∧
      boundElementType sampleEnv
          [.constVal ⟨⟨tyInt64, .int 1⟩, astutil.ConstUnboundInt, exec.InvalidReserved⟩,
            .constVal ⟨⟨exec.TyFloat64, .float 0x4004000000000000⟩,
              astutil.ConstUnboundFloat, exec.InvalidReserved⟩] 0 2 1 =
        .ok (some exec.TyFloat64) := by
  decide

/-- C5, amended: in a sequence of unbound constants only, the third pass compares
the constants of the highest-ranked unbound kind present. `boundElementType`
returns nil when two constants of that highest kind default-bind to different
kinds; and when the highest kind present is unbound-float (an unbound-integer
next to an unbound-float, as in `[1, 2.5]`) it returns the type `float64`. -/
theorem C5_unbound_only_unification (env : Env) (elts : List iValue) (base max step : Int)
    (hs : StrideOk env elts base max step)
    (hall : ∀ e ∈ visited elts base max step, e.isUnboundConst = true) :
    (∀ (c₁ c₂ : constVal) (k₁ k₂ : Kind),
        iValue.constVal c₁ ∈ visited elts base max step →
        iValue.constVal c₂ ∈ visited elts base max step →
        (∀ c, iValue.constVal c ∈ visited elts base max step → c.kind ≤ c₁.kind) →
        c₂.kind = c₁.kind → c₁.boundKind = .ok k₁ → c₂.boundKind = .ok k₂ → k₁ ≠ k₂ →
        boundElementType env elts base max step = .ok none) ∧
      ((∃ c, iValue.constVal c ∈ visited elts base max step ∧
            c.kind = astutil.ConstUnboundFloat) →
        (∀ c, iValue.constVal c ∈ visited elts base max step →
            c.kind ≤ astutil.ConstUnboundFloat) →
        boundElementType env elts base max step = .ok (some exec.TyFloat64)) := by
  rw [boundElementType_eq_unifyElts env elts base max step hs]
  constructor
  · intro c₁ c₂ k₁ k₂ h₁ h₂ htop hsame hk₁ hk₂ hne
    exact unifyElts_unbound_conflict env _ hall c₁ c₂ k₁ k₂ h₁ h₂ htop hsame hk₁ hk₂ hne
  · intro hex htop
    exact unifyElts_unbound_float env _ hall hex htop

/-- C5, witness: two unbound-integer constants, one stored as `int64` and one as
`uint64`, fail to unify; `[1, 2.5]` unifies to `float64`. -/
theorem C5_unbound_only_unification_witness :
    boundElementType sampleEnv
        [.constVal ⟨⟨tyInt64, .int 1⟩, astutil.ConstUnboundInt, exec.InvalidReserved⟩,
          .constVal ⟨⟨⟨"uint64", reflect.Uint64⟩, .uint 2⟩, astutil.ConstUnboundInt,
            exec.InvalidReserved⟩] 0 2 1 = .ok none ∧
      boundElementType sampleEnv
        [.constVal ⟨⟨tyInt64, .int 1⟩, astutil.ConstUnboundInt, exec.InvalidReserved⟩,
          .constVal ⟨⟨exec.TyFloat64, .float 0x4004000000000000⟩,
            astutil.ConstUnboundFloat, exec.InvalidReserved⟩] 0 2 1 =
        .ok (some exec.TyFloat64) :=
  ⟨(C5_unbound_only_unification sampleEnv
        [.constVal ⟨⟨tyInt64, .int 1⟩, astutil.ConstUnboundInt, exec.InvalidReserved⟩,
          .constVal ⟨⟨⟨"uint64", reflect.Uint64⟩, .uint 2⟩, astutil.ConstUnboundInt,
            exec.InvalidReserved⟩] 0 2 1
        (by unfold StrideOk; decide) (by decide)).1
      ⟨⟨tyInt64, .int 1⟩, astutil.ConstUnboundInt, exec.InvalidReserved⟩
      ⟨⟨⟨"uint64", reflect.Uint64⟩, .uint 2⟩, astutil.ConstUnboundInt, exec.InvalidReserved⟩
      reflect.Int reflect.Uint (by decide) (by decide)
      (fun c hc => by
        have hv : visited
            [.constVal ⟨⟨tyInt64, .int 1⟩, astutil.ConstUnboundInt, exec.InvalidReserved⟩,
              .constVal ⟨⟨⟨"uint64", reflect.Uint64⟩, .uint 2⟩, astutil.ConstUnboundInt,
                exec.InvalidReserved⟩] 0 2 1 =
            [.constVal ⟨⟨tyInt64, .int 1⟩, astutil.ConstUnboundInt, exec.InvalidReserved⟩,
              .constVal ⟨⟨⟨"uint64", reflect.Uint64⟩, .uint 2⟩, astutil.ConstUnboundInt,
                exec.InvalidReserved⟩] := by decide
        rw [hv] at hc
        simp only [List.mem_cons, iValue.constVal.injEq, List.mem_singleton,
          List.not_mem_nil, or_false] at hc
        rcases hc with rfl | rfl <;> decide)
      (by decide) (by decide) (by decide) (by decide),
    (C5_unbound_only_unification sampleEnv
        [.constVal ⟨⟨tyInt64, .int 1⟩, astutil.ConstUnboundInt, exec.InvalidReserved⟩,
          .constVal ⟨⟨exec.TyFloat64, .float 0x4004000000000000⟩,
            astutil.ConstUnboundFloat, exec.InvalidReserved⟩] 0 2 1
        (by unfold StrideOk; decide) (by decide)).2
      ⟨⟨⟨exec.TyFloat64, .float 0x4004000000000000⟩, astutil.ConstUnboundFloat,
        exec.InvalidReserved⟩, by decide, rfl⟩
      (fun c hc => by
        have hv : visited
            [.constVal ⟨⟨tyInt64, .int 1⟩, astutil.ConstUnboundInt, exec.InvalidReserved⟩,
              .constVal ⟨⟨exec.TyFloat64, .float 0x4004000000000000⟩,
                astutil.ConstUnboundFloat, exec.InvalidReserved⟩] 0 2 1 =
            [.constVal ⟨⟨tyInt64, .int 1⟩, astutil.ConstUnboundInt, exec.InvalidReserved⟩,
              .constVal ⟨⟨exec.TyFloat64, .float 0x4004000000000000⟩,
                astutil.ConstUnboundFloat, exec.InvalidReserved⟩] := by decide
        rw [hv] at hc
        simp only [List.mem_cons, iValue.constVal.injEq, List.mem_singleton,
          List.not_mem_nil, or_false] at hc
        rcases hc with rfl | rfl <;> decide)⟩

/-- C6, counterexample: two sequences of arity-1 elements in which `int8` is the
only type occurring among the bound elements and every constant is convertible
to `int8`, on which `boundElementType` does not return `int8`. In the first, a
constant of the empty-interface kind (a bound kind without a predeclared type,
so that its `Type` is nil) follows the `int8` value: its nil type is compared
with `int8` and the result is nil. In the second, a `funcResults` wrapper of a
function with one output (arity 1) follows the `int8` value: its `Kind`
panics. -/
theorem C6_single_type_not_returned :
    (∀ e ∈ [iValue.goValue exec.TyInt8,
        iValue.constVal ⟨⟨tyInt64, .int 1⟩, reflect.Interface, 0⟩], e.NumValues = 1) ∧
      (iValue.goValue exec.TyInt8).Type = .ok (some exec.TyInt8) ∧
      (iValue.constVal ⟨⟨tyInt64, .int 1⟩, reflect.Interface, 0⟩).isBound = true ∧
      (iValue.constVal ⟨⟨tyInt64, .int 1⟩, reflect.Interface, 0⟩).Type = .ok none ∧
      constIsConvertible sampleEnv ⟨tyInt64, .int 1⟩ exec.TyInt8 = true ∧
      boundElementType sampleEnv
        [.goValue exec.TyInt8, .constVal ⟨⟨tyInt64, .int 1⟩, reflect.Interface, 0⟩] 0 2 1 =
        .ok none ∧
      (∀ e ∈ [iValue.goValue exec.TyInt8,
        iValue.funcResults ⟨⟨"func() int", reflect.Func⟩, [exec.TyInt]⟩], e.NumValues = 1) ∧
      boundElementType sampleEnv
        [.goValue exec.TyInt8,
          .funcResults ⟨⟨"func() int", reflect.Func⟩, [exec.TyInt]⟩] 0 2 1 =
        .error .dontCallMe := by
  decide

/-- C6, amended: when no visited element (all of arity 1) is a `funcResults`
wrapper of a single output, there is a bound element among them, and every bound
element reports the type `T` (none reports nil), `boundElementType` returns `T`
if the raw value of every constant element is convertible to `T`
(`constIsConvertible`), and returns nil if some unbound constant element is not
convertible to `T`. -/
theorem C6_single_bound_type (env : Env) (elts : List iValue) (base max step : Int)
    (T : GoType) (hs : StrideOk env elts base max step)
    (hall : ∀ e ∈ visited elts base max step, e.NumValues = 1 ∧ e.Valid = true)
    (hex : ∃ e ∈ visited elts base max step, e.isBound = true)
    (hT : ∀ e ∈ visited elts base max step, e.isBound = true → e.Type = .ok (some T)) :
    ((∀ c, iValue.constVal c ∈ visited elts base max step →
          constIsConvertible env c.v T = true) →
        boundElementType env elts base max step = .ok (some T)) ∧
      ((∃ c, iValue.constVal c ∈ visited elts base max step ∧
            isConstBound c.kind = false ∧ constIsConvertible env c.v T = false) →
        boundElementType env elts base max step = .ok none) := by
  rw [boundElementType_eq_unifyElts env elts base max step hs]
  obtain ⟨ku, hscan⟩ := scan_to_bound T _ 0 hall hT hex
  constructor
  · intro hconv
    simp only [unifyElts, hscan, convertible_pass_ok env T _ hconv]
  · intro hbad
    obtain ⟨c, hc, _, hnc⟩ := hbad
    simp only [unifyElts, hscan, convertible_pass_fails env T _ ⟨c, hc, hnc⟩]

/-- C6, witness: `[x, 1]` with `x` of a user type over `int8` unifies to that
type; `[s, 1]` with `s` a string does not unify. -/
theorem C6_single_bound_type_witness :
    boundElementType sampleEnv
        [.goValue ⟨"T", reflect.Int8⟩,
          .constVal ⟨⟨tyInt64, .int 1⟩, astutil.ConstUnboundInt, exec.InvalidReserved⟩] 0 2 1 =
        .ok (some ⟨"T", reflect.Int8⟩) ∧
      boundElementType sampleEnv
        [.goValue exec.TyString,
          .constVal ⟨⟨tyInt64, .int 1⟩, astutil.ConstUnboundInt, exec.InvalidReserved⟩] 0 2 1 =
        .ok none :=
  ⟨(C6_single_bound_type sampleEnv
        [.goValue ⟨"T", reflect.Int8⟩,
          .constVal ⟨⟨tyInt64, .int 1⟩, astutil.ConstUnboundInt, exec.InvalidReserved⟩] 0 2 1
        ⟨"T", reflect.Int8⟩ (by unfold StrideOk; decide) (by decide) (by decide)
        (by decide)).1
      (fun c hc => by
        have hv : visited
            [.goValue ⟨"T", reflect.Int8⟩,
              .constVal ⟨⟨tyInt64, .int 1⟩, astutil.ConstUnboundInt,
                exec.InvalidReserved⟩] 0 2 1 =
            [.goValue ⟨"T", reflect.Int8⟩,
              .constVal ⟨⟨tyInt64, .int 1⟩, astutil.ConstUnboundInt,
                exec.InvalidReserved⟩] := by decide
        rw [hv] at hc
        simp only [List.mem_cons, iValue.constVal.injEq, List.mem_singleton,
          List.not_mem_nil, or_false] at hc
        rcases hc with h | rfl
        · cases h
        · decide),
    (C6_single_bound_type sampleEnv
        [.goValue exec.TyString,
          .constVal ⟨⟨tyInt64, .int 1⟩, astutil.ConstUnboundInt, exec.InvalidReserved⟩] 0 2 1
        exec.TyString (by unfold StrideOk; decide) (by decide) (by decide) (by decide)).2
      ⟨⟨⟨tyInt64, .int 1⟩, astutil.ConstUnboundInt, exec.InvalidReserved⟩,
        by decide, by decide, by decide⟩⟩

/-- C7, counterexample: two sequences of arity-1 elements with two bound elements
of different types on which `boundElementType` does not return nil. In the
first, a `funcResults` wrapper of a function with one output (arity 1) stands
before an `int` and a `string` value: its `Kind` panics before the mismatch is
met. In the second, a constant of the empty-interface kind (a bound kind without
a predeclared type, so that its `Type` is nil) stands before an `int8` value:
the nil type is taken for "no bound type seen yet" and the result is `int8`. -/
theorem C7_different_types_without_nil_result :
    (∀ e ∈ [iValue.funcResults ⟨⟨"func() int", reflect.Func⟩, [exec.TyInt]⟩,
        iValue.goValue exec.TyInt, iValue.goValue exec.TyString], e.NumValues = 1) ∧
      (iValue.goValue exec.TyInt).isBound = true ∧
      (iValue.goValue exec.TyString).isBound = true ∧
      (iValue.goValue exec.TyInt).Type ≠ (iValue.goValue exec.TyString).Type ∧
      boundElementType sampleEnv
        [.funcResults ⟨⟨"func() int", reflect.Func⟩, [exec.TyInt]⟩,
          .goValue exec.TyInt, .goValue exec.TyString] 0 3 1 = .error .dontCallMe ∧
      (∀ e ∈ [iValue.constVal ⟨⟨tyInt64, .int 1⟩, reflect.Interface, 0⟩,
        iValue.goValue exec.TyInt8], e.NumValues = 1) ∧
      (iValue.constVal ⟨⟨tyInt64, .int 1⟩, reflect.Interface, 0⟩).isBound = true ∧
      (iValue.goValue exec.TyInt8).isBound = true ∧
      (iValue.constVal ⟨⟨tyInt64, .int 1⟩, reflect.Interface, 0⟩).Type = .ok none ∧
      (iValue.goValue exec.TyInt8).Type = .ok (some exec.TyInt8) ∧
      boundElementType sampleEnv
        [.constVal ⟨⟨tyInt64, .int 1⟩, reflect.Interface, 0⟩, .goValue exec.TyInt8] 0 2 1 =
        .ok (some exec.TyInt8) := by
  decide

/-- C7, amended: when no visited element (all of arity 1) is a `funcResults`
wrapper of a single output and two bound elements among them report different
types `T` and `U` (neither reports nil), `boundElementType` returns nil, wherever
the two elements stand and whatever the other elements are. -/
theorem C7_two_bound_types_fail (env : Env) (elts : List iValue) (base max step : Int)
    (e₁ e₂ : iValue) (T U : GoType) (hs : StrideOk env elts base max step)
    (hall : ∀ e ∈ visited elts base max step, e.NumValues = 1 ∧ e.Valid = true)
    (h₁ : e₁ ∈ visited elts base max step) (h₂ : e₂ ∈ visited elts base max step)
    (hb₁ : e₁.isBound = true) (hb₂ : e₂.isBound = true)
    (hT : e₁.Type = .ok (some T)) (hU : e₂.Type = .ok (some U)) (hne : T ≠ U) :
    boundElementType env elts base max step = .ok none := by
  rw [boundElementType_eq_unifyElts env elts base max step hs]
  exact unifyElts_mismatch env _ hall e₁ e₂ T U h₁ h₂ hb₁ hb₂ hT hU hne

/-- C7, witness: a map literal's values (stride 2 from position 1) of two
different user types over `int8`, with an unbound constant between them. -/
theorem C7_two_bound_types_fail_witness :
    boundElementType sampleEnv
        [.goValue exec.TyString, .goValue ⟨"T", reflect.Int8⟩,
          .goValue exec.TyString,
          .constVal ⟨⟨tyInt64, .int 1⟩, astutil.ConstUnboundInt, exec.InvalidReserved⟩,
          .goValue exec.TyString, .goValue ⟨"U", reflect.Int8⟩] 1 6 2 = .ok none :=
  C7_two_bound_types_fail sampleEnv _ 1 6 2 (.goValue ⟨"T", reflect.Int8⟩)
    (.goValue ⟨"U", reflect.Int8⟩) ⟨"T", reflect.Int8⟩ ⟨"U", reflect.Int8⟩
    (by unfold StrideOk; decide) (by decide) (by decide) (by decide) (by decide) (by decide)
    rfl rfl (by decide)

/-- C11: for every constant whose patch slot is `InvalidReserved` and every
target type `t` whose kind is the constant's kind, or that is the empty-interface
type, `bound(t, b)` returns and is a no-op: raw value, kind and slot are
unchanged and no call is made on `b`; so repeating the call any number of times
gives the same state. -/
theorem C11_bound_noop_idempotent (env : Env) (p : constVal) (t : GoType) (b : Builder)
    (hr : p.reserve = exec.InvalidReserved)
    (ht : t.kind = p.kind ∨ t = exec.TyEmptyInterface) :
    constVal.bound env p t b = ⟨none, p, b⟩ ∧
      ∀ n : Nat, boundSeq env p b (List.replicate n t) = ⟨none, p, b⟩ :=
  ⟨bound_invalid_noop env p t b hr ht,
    boundSeq_replicate_noop env p t b (bound_invalid_noop env p t b hr ht)⟩

/-- C11, witness: an `int64` constant bound to `int64`, and bound three times to
the empty interface. -/
theorem C11_bound_noop_idempotent_witness :
    constVal.bound sampleEnv ⟨⟨tyInt64, .int 5⟩, reflect.Int64, exec.InvalidReserved⟩
        tyInt64 [] =
        ⟨none, ⟨⟨tyInt64, .int 5⟩, reflect.Int64, exec.InvalidReserved⟩, []⟩ ∧
      boundSeq sampleEnv ⟨⟨tyInt64, .int 5⟩, reflect.Int64, exec.InvalidReserved⟩ []
        (List.replicate 3 exec.TyEmptyInterface) =
        ⟨none, ⟨⟨tyInt64, .int 5⟩, reflect.Int64, exec.InvalidReserved⟩, []⟩ :=
  ⟨(C11_bound_noop_idempotent sampleEnv
      ⟨⟨tyInt64, .int 5⟩, reflect.Int64, exec.InvalidReserved⟩ tyInt64 [] rfl
      (Or.inl rfl)).1,
    (C11_bound_noop_idempotent sampleEnv
      ⟨⟨tyInt64, .int 5⟩, reflect.Int64, exec.InvalidReserved⟩ exec.TyEmptyInterface [] rfl
      (Or.inr rfl)).2 3⟩

/-- C12: for every constant `x`, bound or unbound, and every operator that
accepts the real kind of `x`, `unaryOp(op, x)` returns a constant of kind
`x.kind`; it is unbound whenever `x` is unbound, although the operator was
applied in the real kind. The conversion of the operand and the operator call
succeed. -/
theorem C12_unaryOp_preserves_kind (env : Env) (op : Operator) (x : constVal)
    (i : OperatorInfo) (t : GoType) (vx v : Value)
    (hi : env.getInfo op = some i) (hw : i.InFirst < 2 ^ 64)
    (hm : i.InFirst.testBit (unaryKindReal x) = true)
    (ht : exec.TypeFromKind (unaryKindReal x) = some t)
    (hx : boundConst env x.v t = .ok vx)
    (hv : env.callBuiltinOp (unaryKindReal x) op [vx] = some v) :
    ∃ c, unaryOp env op x = .ok c ∧ c.kind = x.kind ∧
      (isConstBound x.kind = false → isConstBound c.kind = false) := by
  refine ⟨⟨v, x.kind, -1⟩, ?_, rfl, fun h => h⟩
  unfold unaryOp
  simp [hi, maskRejects_eq _ _ hw, hm, ht, hx, hv]

/-- C12, witness: the operator of the sample environment on the unbound-integer
constant 5. -/
theorem C12_unaryOp_preserves_kind_witness :
    ∃ c, unaryOp sampleEnv 0 ⟨⟨tyInt64, .int 5⟩, astutil.ConstUnboundInt, 3⟩ = .ok c ∧
      c.kind = astutil.ConstUnboundInt ∧ isConstBound c.kind = false :=
  match C12_unaryOp_preserves_kind sampleEnv 0
      ⟨⟨tyInt64, .int 5⟩, astutil.ConstUnboundInt, 3⟩ ⟨2 ^ 13 - 4⟩ tyInt64
      ⟨tyInt64, .int 5⟩ ⟨tyInt64, .int 5⟩
      (by decide) (by decide) (by decide) (by decide) (by decide) (by decide) with
  | ⟨c, hc, hk, hu⟩ => ⟨c, hc, hk, hu (by decide)⟩

/-- C13: for every non-empty sequence of visited elements that are all unbound
constants default-binding (`boundKind`) to one and the same kind `K`,
`boundElementType` returns `exec.TypeFromKind(K)`. -/
theorem C13_same_default_kind_unifies (env : Env) (elts : List iValue) (base max step : Int)
    (K : Kind) (hs : StrideOk env elts base max step)
    (hne : visited elts base max step ≠ [])
    (hall : ∀ e ∈ visited elts base max step, e.isUnboundConst = true)
    (hK : ∀ c, iValue.constVal c ∈ visited elts base max step → c.boundKind = .ok K) :
    boundElementType env elts base max step = .ok (exec.TypeFromKind K) := by
  rw [boundElementType_eq_unifyElts env elts base max step hs]
  exact unifyElts_unbound_same env _ K hne hall hK

/-- C13, witness: the literal `[1, 2]` unifies to the type `int`. -/
theorem C13_same_default_kind_unifies_witness :
    boundElementType sampleEnv
        [.constVal ⟨⟨tyInt64, .int 1⟩, astutil.ConstUnboundInt, exec.InvalidReserved⟩,
          .constVal ⟨⟨tyInt64, .int 2⟩, astutil.ConstUnboundInt, exec.InvalidReserved⟩] 0 2 1 =
        .ok (exec.TypeFromKind reflect.Int) ∧
      exec.TypeFromKind reflect.Int = some exec.TyInt :=
  ⟨C13_same_default_kind_unifies sampleEnv
      [.constVal ⟨⟨tyInt64, .int 1⟩, astutil.ConstUnboundInt, exec.InvalidReserved⟩,
        .constVal ⟨⟨tyInt64, .int 2⟩, astutil.ConstUnboundInt, exec.InvalidReserved⟩] 0 2 1
      reflect.Int (by unfold StrideOk; decide) (by decide) (by decide)
      (fun c hc => by
        have hv : visited
            [.constVal ⟨⟨tyInt64, .int 1⟩, astutil.ConstUnboundInt, exec.InvalidReserved⟩,
              .constVal ⟨⟨tyInt64, .int 2⟩, astutil.ConstUnboundInt,
                exec.InvalidReserved⟩] 0 2 1 =
            [.constVal ⟨⟨tyInt64, .int 1⟩, astutil.ConstUnboundInt, exec.InvalidReserved⟩,
              .constVal ⟨⟨tyInt64, .int 2⟩, astutil.ConstUnboundInt,
                exec.InvalidReserved⟩] := by decide
        rw [hv] at hc
        simp only [List.mem_cons, iValue.constVal.injEq, List.mem_singleton,
          List.not_mem_nil, or_false] at hc
        rcases hc with rfl | rfl <;> decide),
    by decide⟩

/-- C14, counterexample: in `[x, y, pkg]` with `x` and `y` bound to different
types and `pkg` a non-value (arity 0), all positions visited, `boundElementType`
returns nil at `y` and never looks at `pkg`. -/
theorem C14_mismatch_returns_before_arity_check :
    iValue.NumValues .nonValue ≠ 1 ∧
      visited [.goValue ⟨"T", reflect.Int8⟩, .goValue ⟨"U", reflect.Int8⟩, .nonValue] 0 3 1 =
        [.goValue ⟨"T", reflect.Int8⟩, .goValue ⟨"U", reflect.Int8⟩, .nonValue] ∧
      boundElementType sampleEnv
        [.goValue ⟨"T", reflect.Int8⟩, .goValue ⟨"U", reflect.Int8⟩, .nonValue] 0 3 1 =
        .ok none := by
  decide

/-- C14, amended: when a visited element has an arity other than one and the
bound elements visited before it all report the same type, `boundElementType`
panics: it returns neither a type nor nil, whatever the other elements are. -/
theorem C14_arity_is_fatal (env : Env) (elts : List iValue) (base max step : Int)
    (pre post : List iValue) (e : iValue) (t : Option GoType)
    (hs : StrideOk env elts base max step)
    (hv : visited elts base max step = pre ++ e :: post) (ha : e.NumValues ≠ 1)
    (hpre : ∀ e' ∈ pre, e'.isBound = true → e'.Type = .ok t) :
    ∃ err, boundElementType env elts base max step = .error err := by
  rw [boundElementType_eq_unifyElts env elts base max step hs, hv]
  exact unifyElts_arity_fatal env pre post e t ha hpre

/-- C14, witness: a two-result call after a bound element and a constant. -/
theorem C14_arity_is_fatal_witness :
    ∃ err, boundElementType sampleEnv
        [.goValue ⟨"T", reflect.Int8⟩,
          .constVal ⟨⟨tyInt64, .int 1⟩, astutil.ConstUnboundInt, exec.InvalidReserved⟩,
          .funcResults ⟨⟨"func() (int, string)", reflect.Func⟩, [exec.TyInt, exec.TyString]⟩,
          .goValue ⟨"U", reflect.Int8⟩] 0 4 1 = .error err :=
  C14_arity_is_fatal sampleEnv _ 0 4 1
    [.goValue ⟨"T", reflect.Int8⟩,
      .constVal ⟨⟨tyInt64, .int 1⟩, astutil.ConstUnboundInt, exec.InvalidReserved⟩]
    [.goValue ⟨"U", reflect.Int8⟩]
    (.funcResults ⟨⟨"func() (int, string)", reflect.Func⟩, [exec.TyInt, exec.TyString]⟩)
    (some ⟨"T", reflect.Int8⟩)
    (by unfold StrideOk; decide) (by decide) (by decide) (by decide)

/-- C15, the code at the failing input: `boundConst` of the `int64` value 3 for
the target `complex64` returns a `complex128`, not a `complex64`; after `bound`
the constant records the kind `complex64` over a `complex128` value, which is
also what it pushes. On the general path a `complex128` value converted to
`complex64` does get the type `complex64`. -/
theorem C15_complex64_target_yields_complex128 (env : Env) (re im : Nat) :
    boundConst env ⟨tyInt64, .int 3⟩ ⟨"complex64", reflect.Complex64⟩ =
        .ok ⟨⟨"complex128", reflect.Complex128⟩,
          .complex (env.roundFloat reflect.Float64 (env.intToFloat 3)) 0⟩ ∧
      (⟨"complex128", reflect.Complex128⟩ : GoType) ≠ ⟨"complex64", reflect.Complex64⟩ ∧
      constVal.bound env ⟨⟨tyInt64, .int 3⟩, astutil.ConstUnboundInt, 0⟩
          ⟨"complex64", reflect.Complex64⟩ [] =
        ⟨none,
          ⟨⟨⟨"complex128", reflect.Complex128⟩,
              .complex (env.roundFloat reflect.Float64 (env.intToFloat 3)) 0⟩,
            reflect.Complex64, 0⟩,
          [BuilderCall.ReservedAsPush 0
            ⟨⟨"complex128", reflect.Complex128⟩,
              .complex (env.roundFloat reflect.Float64 (env.intToFloat 3)) 0⟩]⟩ ∧
      boundConst env ⟨⟨"complex128", reflect.Complex128⟩, .complex re im⟩
          ⟨"complex64", reflect.Complex64⟩ =
        .ok ⟨⟨"complex64", reflect.Complex64⟩,
          .complex (env.roundFloat reflect.Float32 re) (env.roundFloat reflect.Float32 im)⟩ := by
  have h1 : boundConst env ⟨tyInt64, .int 3⟩ ⟨"complex64", reflect.Complex64⟩ =
      .ok ⟨⟨"complex128", reflect.Complex128⟩,
        .complex (env.roundFloat reflect.Float64 (env.intToFloat 3)) 0⟩ := rfl
  refine ⟨h1, by decide, ?_, rfl⟩
  unfold constVal.bound
  rw [if_neg (by decide)]
  simp only [h1]
  rfl

/-- C16: whenever `bound(t, b)` fails, the failure is a type mismatch or a failed
conversion, the constant (raw value, kind, patch slot) is what it was before the
call, and no call has been made on `b`. -/
theorem C16_failed_bound_is_atomic (env : Env) (p : constVal) (t : GoType) (b : Builder)
    (e : Err) (hf : (constVal.bound env p t b).err = some e) :
    (constVal.bound env p t b).p = p ∧ (constVal.bound env p t b).b = b ∧
      (e = Err.typeMismatch ∨ e = Err.convert) := by
  unfold constVal.bound at hf ⊢
  by_cases hr : p.reserve = exec.InvalidReserved
  · rw [if_pos hr] at hf ⊢
    by_cases hk : p.kind ≠ t.kind
    · rw [if_pos hk] at hf ⊢
      by_cases he : t = exec.TyEmptyInterface
      · rw [if_pos he] at hf
        cases hf
      · rw [if_neg he] at hf ⊢
        injection hf with hf
        exact ⟨rfl, rfl, Or.inl hf.symm⟩
    · rw [if_neg hk] at hf
      cases hf
  · rw [if_neg hr] at hf ⊢
    cases hv : boundConst env p.v t with
    | error e' =>
      rw [hv] at hf
      injection hf with hf
      subst hf
      exact ⟨rfl, rfl, Or.inr (boundConst_error env _ _ _ hv)⟩
    | ok v =>
      rw [hv] at hf
      cases hf

/-- C16, witness: the unbound-integer constant 5 with a pending slot, bound to
`bool`, to which an `int64` does not convert. -/
theorem C16_failed_bound_is_atomic_witness :
    (constVal.bound sampleEnv ⟨⟨tyInt64, .int 5⟩, astutil.ConstUnboundInt, 4⟩
        ⟨"bool", reflect.Bool⟩ [BuilderCall.ReservedAsPush 1 ⟨exec.TyInt, .int 0⟩]).p =
        ⟨⟨tyInt64, .int 5⟩, astutil.ConstUnboundInt, 4⟩ ∧
      (constVal.bound sampleEnv ⟨⟨tyInt64, .int 5⟩, astutil.ConstUnboundInt, 4⟩
        ⟨"bool", reflect.Bool⟩ [BuilderCall.ReservedAsPush 1 ⟨exec.TyInt, .int 0⟩]).b =
        [BuilderCall.ReservedAsPush 1 ⟨exec.TyInt, .int 0⟩] ∧
      (Err.convert = Err.typeMismatch ∨ Err.convert = Err.convert) :=
  C16_failed_bound_is_atomic sampleEnv
    ⟨⟨tyInt64, .int 5⟩, astutil.ConstUnboundInt, 4⟩ ⟨"bool", reflect.Bool⟩
    [BuilderCall.ReservedAsPush 1 ⟨exec.TyInt, .int 0⟩] Err.convert (by decide)

/-- C17: for every function type with `n ≥ 1` outputs, `newFuncResults` has
`n` values, its `i`-th value has the type of the `i`-th output and the kind of
that type; with one output the result is the `goValue` of that output, of arity
one. -/
theorem C17_newFuncResults_exposes_outputs (tfn : FuncType) (_hn : 1 ≤ tfn.outs.length) :
    ∃ r, newFuncResults tfn = .ok r ∧ r.NumValues = tfn.outs.length ∧
      (∀ (i : Nat) (t : GoType), tfn.outs.get? i = some t →
        ∃ v, r.Value i = .ok v ∧ v.Type = .ok (some t) ∧ v.Kind = .ok t.kind) ∧
      (∀ t, tfn.outs = [t] →
        r = iValue.goValue t ∧ r.Type = .ok (some t) ∧ r.Kind = .ok t.kind ∧
          r.NumValues = 1) := by
  by_cases h1 : tfn.outs.length = 1
  · obtain ⟨t, ht⟩ := List.length_eq_one.1 h1
    refine ⟨.goValue t, newFuncResults_single tfn t ht, by simp [iValue.NumValues, ht], ?_, ?_⟩
    · intro i u hi
      rw [ht] at hi
      cases i with
      | zero =>
        simp only [List.get?_cons_zero, Option.some.injEq] at hi
        subst hi
        exact ⟨.goValue t, rfl, rfl, rfl⟩
      | succ j => simp at hi
    · intro u hu
      rw [ht] at hu
      injection hu with hu
      subst hu
      exact ⟨rfl, rfl, rfl, rfl⟩
  · refine ⟨.funcResults tfn, newFuncResults_wrapped tfn h1, rfl, ?_, ?_⟩
    · intro i t hi
      exact ⟨.goValue t, by simp only [iValue.Value, hi], rfl, rfl⟩
    · intro t ht
      rw [ht] at h1
      exact absurd rfl h1

/-- C17, witness: a function type with the outputs `int` and `string`. -/
theorem C17_newFuncResults_exposes_outputs_witness :
    ∃ r, newFuncResults ⟨⟨"func() (int, string)", reflect.Func⟩, [exec.TyInt, exec.TyString]⟩ =
        .ok r ∧ r.NumValues = 2 ∧
      (∃ v, r.Value 1 = .ok v ∧ v.Type = .ok (some exec.TyString) ∧
        v.Kind = .ok reflect.String) :=
  match C17_newFuncResults_exposes_outputs
      ⟨⟨"func() (int, string)", reflect.Func⟩, [exec.TyInt, exec.TyString]⟩ (by decide) with
  | ⟨r, hr, hn, hv, _⟩ => ⟨r, hr, hn, hv 1 exec.TyString rfl⟩

/-- C18, counterexample: for a function type without outputs `newFuncResults`
returns a `funcResults` wrapper. -/
theorem C18_zero_outputs_wrapped :
    (⟨⟨"func()", reflect.Func⟩, []⟩ : FuncType).outs.length = 0 ∧
      newFuncResults ⟨⟨"func()", reflect.Func⟩, []⟩ =
        .ok (.funcResults ⟨⟨"func()", reflect.Func⟩, []⟩) ∧
      (iValue.funcResults ⟨⟨"func()", reflect.Func⟩, []⟩).isFuncResults = true := by
  decide

/-- C18, amended: `newFuncResults(tfn)` is a `funcResults` wrapper exactly when
`tfn.NumOut() != 1`: for two or more outputs and for none; a function with one
output is never wrapped. -/
theorem C18_wrapped_iff_not_single (tfn : FuncType) :
    ∃ r, newFuncResults tfn = .ok r ∧
      (r.isFuncResults = true ↔ tfn.outs.length ≠ 1) ∧
      (2 ≤ tfn.outs.length → r.isFuncResults = true) ∧
      (tfn.outs.length = 1 → r.isFuncResults = false) ∧
      (tfn.outs.length = 0 → r.isFuncResults = true) := by
  by_cases h1 : tfn.outs.length = 1
  · obtain ⟨t, ht⟩ := List.length_eq_one.1 h1
    refine ⟨.goValue t, newFuncResults_single tfn t ht, ?_, ?_, ?_, ?_⟩
    · simp [iValue.isFuncResults, h1]
    · intro h2; omega
    · intro _; rfl
    · intro h0; omega
  · refine ⟨.funcResults tfn, newFuncResults_wrapped tfn h1, ?_, ?_, ?_, ?_⟩
    · simp [iValue.isFuncResults, h1]
    · intro _; rfl
    · intro h; exact absurd h h1
    · intro _; rfl

/-- C20, counterexample: the two tests differ in both directions. For the `int64`
value 65 and the target `string`, `constIsConvertible` is false although
`boundConst` succeeds (with `"A"`). For a slice `[]int` of one element and the
target `[4]int`, `constIsConvertible` is true (the types are convertible)
although `boundConst` panics in `Convert`. -/
theorem C20_int_to_string_differs :
    constIsConvertible sampleEnv ⟨tyInt64, .int 65⟩ exec.TyString = false ∧
      boundConst sampleEnv ⟨tyInt64, .int 65⟩ exec.TyString =
        .ok ⟨exec.TyString, .str "A"⟩ ∧
      Value.WellFormed ⟨⟨"[]int", reflect.Slice⟩, .other 1⟩ = true ∧
      constIsConvertible sampleEnv ⟨⟨"[]int", reflect.Slice⟩, .other 1⟩
        ⟨"[4]int", reflect.Array⟩ = true ∧
      boundConst sampleEnv ⟨⟨"[]int", reflect.Slice⟩, .other 1⟩ ⟨"[4]int", reflect.Array⟩ =
        .error .convert := by
  decide

/-- C20, amended: on a well-formed raw value, `constIsConvertible(v, t)` true
implies that `boundConst(v, t)` succeeds, unless `reflect` converts the type of
`v` to `t` by a structural conversion that panics on `v`; for a target that is
not of string kind the converse holds too (no structural rule of `reflect`
converts to a complex type); for a target of string kind `constIsConvertible`
accepts exactly the sources of string kind. -/
theorem C20_convertible_implies_bindable (env : Env) (v : Value) (t : GoType)
    (hw : v.WellFormed = true) :
    ((convertOp env t v.typ = some ConvOp.cvtOther → ∃ r, env.convOther v t = some r) →
        constIsConvertible env v t = true → ∃ r, boundConst env v t = .ok r) ∧
      (t.kind ≠ reflect.String →
        (isComplexKind t.kind = true → env.convertibleOther t v.typ = false) →
        (∃ r, boundConst env v t = .ok r) → constIsConvertible env v t = true) ∧
      (t.kind = reflect.String →
        (constIsConvertible env v t = true ↔ v.typ.kind = reflect.String)) := by
  refine ⟨boundConst_of_convertible env v t hw, ?_, ?_⟩
  · intro hS ho hr
    obtain ⟨r, hr⟩ := hr
    exact convertible_of_boundConst env v t r hS ho hr
  · intro hS
    unfold constIsConvertible
    simp [hS]

/-- C20, witness: the `int64` value 65 against `int8` and against `string`, and
a slice `[]int` of five elements against `[4]int`. -/
theorem C20_convertible_implies_bindable_witness :
    (∃ r, boundConst sampleEnv ⟨tyInt64, .int 65⟩ exec.TyInt8 = .ok r) ∧
      constIsConvertible sampleEnv ⟨tyInt64, .int 65⟩ exec.TyInt8 = true ∧
      (constIsConvertible sampleEnv ⟨tyInt64, .int 65⟩ exec.TyString = true ↔
        tyInt64.kind = reflect.String) ∧
      (∃ r, boundConst sampleEnv ⟨⟨"[]int", reflect.Slice⟩, .other 5⟩
        ⟨"[4]int", reflect.Array⟩ = .ok r) :=
  ⟨(C20_convertible_implies_bindable sampleEnv ⟨tyInt64, .int 65⟩ exec.TyInt8
      (by decide)).1 (fun h => absurd h (by decide)) (by decide),
    (C20_convertible_implies_bindable sampleEnv ⟨tyInt64, .int 65⟩ exec.TyInt8
      (by decide)).2.1 (by decide) (by decide) ⟨⟨exec.TyInt8, .int 65⟩, by decide⟩,
    (C20_convertible_implies_bindable sampleEnv ⟨tyInt64, .int 65⟩ exec.TyString
      (by decide)).2.2 rfl,
    (C20_convertible_implies_bindable sampleEnv ⟨⟨"[]int", reflect.Slice⟩, .other 5⟩
      ⟨"[4]int", reflect.Array⟩ (by decide)).1 (fun _ => ⟨.other 5, by decide⟩)
      (by decide)⟩

/-- C21, counterexample: two element sequences whose elements all have arity 1
give different results in another order. First, a constant that `bound` left
with the kind of the empty interface (a bound kind without a predeclared type,
so that its `Type` is nil) before an `int8` value unifies to `int8`, while after
it the result is nil: the nil type is taken for "no bound type seen yet" in one
order and for a mismatch in the other. Second, a `funcResults` wrapper of a
function with one output has arity 1 and its `Kind` panics: after two values of
different types the loop has already returned nil, before them it panics. -/
theorem C21_nil_type_or_panic_depends_on_order :
    (constVal.bound sampleEnv ⟨⟨tyInt64, .int 1⟩, astutil.ConstUnboundInt, 0⟩
        exec.TyEmptyInterface []).err = none ∧
      (constVal.bound sampleEnv ⟨⟨tyInt64, .int 1⟩, astutil.ConstUnboundInt, 0⟩
        exec.TyEmptyInterface []).p = ⟨⟨tyInt64, .int 1⟩, reflect.Interface, 0⟩ ∧
      ([iValue.constVal ⟨⟨tyInt64, .int 1⟩, reflect.Interface, 0⟩,
          iValue.goValue exec.TyInt8]).Perm
        [iValue.goValue exec.TyInt8,
          iValue.constVal ⟨⟨tyInt64, .int 1⟩, reflect.Interface, 0⟩] ∧
      (∀ e ∈ [iValue.constVal ⟨⟨tyInt64, .int 1⟩, reflect.Interface, 0⟩,
          iValue.goValue exec.TyInt8], e.NumValues = 1) ∧
      boundElementType sampleEnv
        [.constVal ⟨⟨tyInt64, .int 1⟩, reflect.Interface, 0⟩, .goValue exec.TyInt8] 0 2 1 =
        .ok (some exec.TyInt8) ∧
      boundElementType sampleEnv
        [.goValue exec.TyInt8, .constVal ⟨⟨tyInt64, .int 1⟩, reflect.Interface, 0⟩] 0 2 1 =
        .ok none ∧
      ([iValue.goValue exec.TyInt, iValue.goValue exec.TyString,
          iValue.funcResults ⟨⟨"func() int", reflect.Func⟩, [exec.TyInt]⟩]).Perm
        [iValue.funcResults ⟨⟨"func() int", reflect.Func⟩, [exec.TyInt]⟩,
          iValue.goValue exec.TyInt, iValue.goValue exec.TyString] ∧
      (∀ e ∈ [iValue.goValue exec.TyInt, iValue.goValue exec.TyString,
          iValue.funcResults ⟨⟨"func() int", reflect.Func⟩, [exec.TyInt]⟩],
        e.NumValues = 1) ∧
      boundElementType sampleEnv
        [.goValue exec.TyInt, .goValue exec.TyString,
          .funcResults ⟨⟨"func() int", reflect.Func⟩, [exec.TyInt]⟩] 0 3 1 = .ok none ∧
      boundElementType sampleEnv
        [.funcResults ⟨⟨"func() int", reflect.Func⟩, [exec.TyInt]⟩,
          .goValue exec.TyInt, .goValue exec.TyString] 0 3 1 = .error .dontCallMe := by
  decide

/-- C21, amended: `boundElementType` (base 0, step 1, max the length) does not
depend on the order of the elements when every element has arity 1 and is not a
`funcResults` wrapper of a single output (`newFuncResults` builds none), every
element of a bound kind reports a type (not nil), and the length is a Go `int`:
on a permutation of the sequence it gives the same type, nil on both, or the same
panic on both. -/
theorem C21_order_independent_when_typed (env : Env) (elts elts' : List iValue)
    (hp : elts.Perm elts')
    (hov : (elts.length : Int) + 1 ≤ 2 ^ (env.intBits - 1))
    (hall : ∀ e ∈ elts, e.NumValues = 1 ∧ e.Valid = true)
    (hty : ∀ e ∈ elts, e.isBound = true → ∃ T, e.Type = .ok (some T)) :
    boundElementType env elts 0 elts.length 1 =
      boundElementType env elts' 0 elts'.length 1 := by
  have hlen : elts'.length = elts.length := hp.length_eq.symm
  have hs : StrideOk env elts 0 elts.length 1 :=
    ⟨le_refl _, by decide, le_refl _, hov⟩
  have hs' : StrideOk env elts' 0 elts'.length 1 :=
    ⟨le_refl _, by decide, le_refl _, by rw [hlen]; exact hov⟩
  rw [boundElementType_eq_unifyElts env elts _ _ _ hs,
    boundElementType_eq_unifyElts env elts' _ _ _ hs', visited_all, visited_all]
  exact unifyElts_perm env hp (fun e he => ⟨(hall e he).1, (hall e he).2, hty e he⟩)

/-- C21, witness: an `int8` value, an unbound integer constant and a bound `int8`
constant unify to `int8`, and so does the sequence with the last element moved to
the front. -/
theorem C21_order_independent_when_typed_witness :
    boundElementType sampleEnv
        [.goValue exec.TyInt8,
          .constVal ⟨⟨tyInt64, .int 1⟩, astutil.ConstUnboundInt, exec.InvalidReserved⟩,
          .constVal ⟨⟨exec.TyInt8, .int 2⟩, reflect.Int8, exec.InvalidReserved⟩]
        0 3 1 =
      boundElementType sampleEnv
        [.constVal ⟨⟨exec.TyInt8, .int 2⟩, reflect.Int8, exec.InvalidReserved⟩,
          .goValue exec.TyInt8,
          .constVal ⟨⟨tyInt64, .int 1⟩, astutil.ConstUnboundInt, exec.InvalidReserved⟩]
        0 3 1 ∧
      boundElementType sampleEnv
        [.goValue exec.TyInt8,
          .constVal ⟨⟨tyInt64, .int 1⟩, astutil.ConstUnboundInt, exec.InvalidReserved⟩,
          .constVal ⟨⟨exec.TyInt8, .int 2⟩, reflect.Int8, exec.InvalidReserved⟩]
        0 3 1 = .ok (some exec.TyInt8) :=
  ⟨C21_order_independent_when_typed sampleEnv
    [.goValue exec.TyInt8,
      .constVal ⟨⟨tyInt64, .int 1⟩, astutil.ConstUnboundInt, exec.InvalidReserved⟩,
      .constVal ⟨⟨exec.TyInt8, .int 2⟩, reflect.Int8, exec.InvalidReserved⟩]
    [.constVal ⟨⟨exec.TyInt8, .int 2⟩, reflect.Int8, exec.InvalidReserved⟩,
      .goValue exec.TyInt8,
      .constVal ⟨⟨tyInt64, .int 1⟩, astutil.ConstUnboundInt, exec.InvalidReserved⟩]
    (by decide) (by decide) (by decide)
    (fun e he => by
      simp only [List.mem_cons, List.mem_singleton, List.not_mem_nil, or_false] at he
      rcases he with rfl | rfl | rfl
      · exact fun _ => ⟨_, rfl⟩
      · exact fun h => absurd h (by decide)
      · exact fun _ => ⟨exec.TyInt8, rfl⟩),
    by decide⟩

end Goplus
